import Mathlib

/-!
fluent-agent-hydra: record conversion (`hydra/fileformat.go`)

A shallow embedding of the type directive parser (`NewConvertMap`), the
converter set, and the record modifier (`ConvertTypes`, `Modify`), followed by
theorems about them.

Modelling conventions.

* A Go `string` is a Lean `String`.  The source only compares strings and
  splits them at the one-byte separators `,` and `:`, which on well-formed
  UTF-8 is the same as splitting the sequence of characters.
* A Go `map[string]V` is an association list `GoMap V`: `GoMap.get` reads the
  first entry carrying a key, `GoMap.set` overwrites that entry in place (or
  appends a new one), and `GoMap.range` lists the live entries, one per key.
  A map that may be `nil` is an `Option (GoMap V)`.
* Go leaves the order of `for ... range` over a map unspecified, so
  `ConvertTypes` and `Modify` take the visiting order as an argument; theorems
  quantify over every order that is a permutation of the live entries.
* `int64` values are integers, wrapped explicitly by `wrapInt64` where the
  source converts between numeric types.
* A float is either a dyadic rational `m * 2 ^ e`, an infinity or a NaN.
* The Go standard library functions `strconv.ParseFloat` and `time.Parse`, and
  the implementation-dependent result of converting an unrepresentable float
  to `int64`, are fields of a `Runtime`.
* `strings.ToLower` is modelled on ASCII; beyond ASCII it applies a function
  `unicodeLower`, an argument of the format selector.
-/

namespace Hydra

/-! ## Go maps -/

/-- A Go `map[string]V`, as an association list read at the first match. -/
abbrev GoMap (V : Type) := List (String × V)

namespace GoMap

/-- The lookup `v, ok := m[k]`. -/
def get {V : Type} : GoMap V → String → Option V
  | [], _ => none
  | (k', v) :: m, k => if k' = k then some v else get m k

/-- The assignment `m[k] = v`. -/
def set {V : Type} : GoMap V → String → V → GoMap V
  | [], k, v => [(k, v)]
  | (k', v') :: m, k, v => if k' = k then (k', v) :: m else (k', v') :: set m k v

/-- The entries a `for k, v := range m` loop visits: one per key. -/
def range {V : Type} : GoMap V → List (String × V)
  | [] => []
  | (k, v) :: m => (k, v) :: (range m).filter (fun e => decide (e.1 ≠ k))

end GoMap

/-- The lookup `v, ok := m[k]` on a map that may be nil. -/
def mapIndex {V : Type} (m : Option (GoMap V)) (k : String) : Option V :=
  match m with
  | none => none
  | some entries => entries.get k

/-- The entries visited by ranging over a map that may be nil. -/
def mapRange {V : Type} (m : Option (GoMap V)) : List (String × V) :=
  match m with
  | none => []
  | some entries => entries.range

/-! ## Strings -/

/-- Splitting a character sequence at every occurrence of `sep`. -/
def splitChars (sep : Char) : List Char → List (List Char)
  | [] => [[]]
  | c :: cs =>
    if c = sep then [] :: splitChars sep cs
    else
      match splitChars sep cs with
      | [] => [[c]]
      | f :: fs => (c :: f) :: fs

/-- Cutting a character sequence at the first occurrence of `sep`. -/
def cutChars (sep : Char) : List Char → Option (List Char × List Char)
  | [] => none
  | c :: cs =>
    if c = sep then some ([], cs)
    else
      match cutChars sep cs with
      | none => none
      | some (a, b) => some (c :: a, b)

/-- Go `strings.Split(s, sep)` for a one-character separator. -/
def Split (s : String) (sep : Char) : List String :=
  (splitChars sep s.data).map String.mk

/-- Go `strings.SplitN(s, sep, 2)` for a one-character separator. -/
def SplitN2 (s : String) (sep : Char) : List String :=
  match cutChars sep s.data with
  | none => [s]
  | some (a, b) => [String.mk a, String.mk b]

/-! ## Numbers -/

/-- Reduction of an integer to the `int64` range (two's complement). -/
def wrapInt64 (i : Int) : Int :=
  (i + 2 ^ 63) % 2 ^ 64 - 2 ^ 63

/-- A floating-point value: `finite m e` is `m * 2 ^ e`. -/
inductive GoFloat where
  | finite (m : Int) (e : Int)
  | inf (neg : Bool)
  | nan
  deriving DecidableEq, Repr

/-- The integer part of a float, rounding toward zero; none for infinities
and NaN. -/
def GoFloat.truncate : GoFloat → Option Int
  | .finite m e =>
    if 0 ≤ e then some (m * 2 ^ e.toNat) else some (Int.tdiv m (2 ^ (-e).toNat))
  | .inf _ => none
  | .nan => none

/-- Errors of the `strconv` parsers. -/
inductive NumError where
  | ErrSyntax
  | ErrRange
  deriving DecidableEq, Repr

/-- A point in time, in nanoseconds since the Unix epoch. -/
structure Time where
  unixNano : Int
  deriving DecidableEq, Repr

/-- Go `Time.Unix`: whole seconds since the epoch. -/
def Time.Unix (t : Time) : Int :=
  t.unixNano / 1000000000

/-- What the source takes from the Go runtime and standard library. -/
structure Runtime where
  /-- Go `strconv.ParseFloat(s, 64)`. -/
  ParseFloat : String → Except NumError GoFloat
  /-- Go `time.Parse(layout, value)`. -/
  timeParse : String → String → Except Unit Time
  /-- The implementation-dependent result of `int64(f)` when the integer part
  of `f` is not an `int64`. -/
  floatOverflow : GoFloat → Int

/-- The conversion `int64(f)` of a floating-point value. -/
def floatToInt64 (rt : Runtime) (f : GoFloat) : Int :=
  match f.truncate with
  | some t =>
    if -2 ^ 63 ≤ t ∧ t < 2 ^ 63 then t else wrapInt64 (rt.floatOverflow f)
  | none => wrapInt64 (rt.floatOverflow f)

/-- The value of a decimal digit, none for any other character. -/
def digitValue (c : Char) : Option Nat :=
  if '0' ≤ c ∧ c ≤ '9' then some (c.toNat - '0'.toNat) else none

/-- The digit loop of Go `strconv.ParseUint(s, 10, 64)`. -/
def parseUintLoop : List Char → Nat → Except NumError Nat
  | [], n => .ok n
  | c :: cs, n =>
    match digitValue c with
    | none => .error .ErrSyntax
    | some d =>
      if n ≥ (2 ^ 64 - 1) / 10 + 1 then .error .ErrRange
      else if n * 10 + d > 2 ^ 64 - 1 then .error .ErrRange
      else parseUintLoop cs (n * 10 + d)

/-- Go `strconv.ParseUint(s, 10, 64)`. -/
def ParseUint (s : List Char) : Except NumError Nat :=
  match s with
  | [] => .error .ErrSyntax
  | _ => parseUintLoop s 0

/-- The range check of Go `strconv.ParseInt` once the sign is removed. -/
def parseIntSigned (neg : Bool) (s : List Char) : Except NumError Int :=
  match ParseUint s with
  | .error .ErrSyntax => .error .ErrSyntax
  | .error .ErrRange => .error .ErrRange
  | .ok un =>
    if !neg ∧ un ≥ 2 ^ 63 then .error .ErrRange
    else if neg ∧ un > 2 ^ 63 then .error .ErrRange
    else if neg then .ok (-(un : Int)) else .ok (un : Int)

/-- Go `strconv.ParseInt(s, 10, 64)`. -/
def ParseInt (s : String) : Except NumError Int :=
  match s.data with
  | [] => .error .ErrSyntax
  | '+' :: cs => parseIntSigned false cs
  | '-' :: cs => parseIntSigned true cs
  | cs => parseIntSigned false cs

/-- Go `strconv.ParseBool(s)`. -/
def ParseBool (s : String) : Except NumError Bool :=
  if s = "1" ∨ s = "t" ∨ s = "T" ∨ s = "true" ∨ s = "TRUE" ∨ s = "True" then .ok true
  else if s = "0" ∨ s = "f" ∨ s = "F" ∨ s = "false" ∨ s = "FALSE" ∨ s = "False" then .ok false
  else .error .ErrSyntax

/-! ## Values, converters and the type directive -/

/-- A dynamically typed field value (Go `interface{}`).  The source tells apart
text and four numeric types; `other` stands for a value of any further dynamic
type (unsigned integers, slices, nested maps, ...), tagged by an identifier. -/
inductive Value where
  | null
  | str (s : String)
  | bool (b : Bool)
  | int (i : Int)
  | int32 (i : Int)
  | int64 (i : Int)
  | float32 (f : GoFloat)
  | float64 (f : GoFloat)
  | other (id : Nat)
  deriving DecidableEq, Repr

/-- The type tags `ConvertTypeString`, ... are the integers 0 to 3. -/
abbrev ConvertType := Int

/-- Tag 0. -/
def ConvertTypeString : ConvertType := 0

/-- Tag 1. -/
def ConvertTypeInt : ConvertType := 1

/-- Tag 2. -/
def ConvertTypeFloat : ConvertType := 2

/-- Tag 3. -/
def ConvertTypeBool : ConvertType := 3

/-- The implementations of the `Converter` interface: the singletons
`convertBool`, `convertInt`, `convertFloat`. -/
inductive Converter where
  | convertBool
  | convertInt
  | convertFloat
  deriving DecidableEq, Repr

/-- The method `BoolConverter.Convert`. -/
def BoolConverter.Convert (v : String) : Except NumError Value :=
  match ParseBool v with
  | .ok b => .ok (.bool b)
  | .error err => .error err

/-- The method `IntConverter.Convert`. -/
def IntConverter.Convert (v : String) : Except NumError Value :=
  match ParseInt v with
  | .ok i => .ok (.int64 i)
  | .error err => .error err

/-- The method `FloatConverter.Convert`. -/
def FloatConverter.Convert (rt : Runtime) (v : String) : Except NumError Value :=
  match rt.ParseFloat v with
  | .ok f => .ok (.float64 f)
  | .error err => .error err

/-- Dynamic dispatch of `Convert` on a `Converter` value. -/
def Converter.Convert (rt : Runtime) (c : Converter) (v : String) : Except NumError Value :=
  match c with
  | .convertBool => BoolConverter.Convert v
  | .convertInt => IntConverter.Convert v
  | .convertFloat => FloatConverter.Convert rt v

/-- The method `TimeConverter.Convert`; a `TimeConverter` is its layout. -/
def TimeConverter.Convert (rt : Runtime) (c : String) (v : String) : Except Unit Time :=
  rt.timeParse c v

/-- The struct `ConvertMap`. -/
structure ConvertMap where
  TypeMap : Option (GoMap ConvertType)
  ConverterMap : Option (GoMap Converter)
  deriving DecidableEq, Repr

/-- The two maps `NewConvertMap` fills while it reads the directive. -/
structure ConvertMapBuild where
  TypeMap : GoMap ConvertType
  ConverterMap : GoMap Converter
  deriving DecidableEq, Repr

/-- One iteration of the loop of `NewConvertMap`, on the fragment `subdef`. -/
def addSubdef (m : ConvertMapBuild) (subdef : String) : ConvertMapBuild :=
  match SplitN2 subdef ':' with
  | key :: kw :: _ =>
    if kw = "bool" then
      { TypeMap := m.TypeMap.set key ConvertTypeBool,
        ConverterMap := m.ConverterMap.set key .convertBool }
    else if kw = "integer" then
      { TypeMap := m.TypeMap.set key ConvertTypeInt,
        ConverterMap := m.ConverterMap.set key .convertInt }
    else if kw = "float" then
      { TypeMap := m.TypeMap.set key ConvertTypeFloat,
        ConverterMap := m.ConverterMap.set key .convertFloat }
    else m
  | _ => m

/-- The loop of `NewConvertMap` over the fragments of the directive. -/
def buildConvertMap (subdefs : List String) (m : ConvertMapBuild) : ConvertMapBuild :=
  subdefs.foldl addSubdef m

/-- The function `NewConvertMap`. -/
def NewConvertMap (config : String) : ConvertMap :=
  let m := buildConvertMap (Split config ',') { TypeMap := [], ConverterMap := [] }
  { TypeMap := some m.TypeMap, ConverterMap := some m.ConverterMap }

/-- The read `c.TypeMap[key]`: the zero tag when the key is absent. -/
def ConvertMap.typeAt (c : ConvertMap) (key : String) : ConvertType :=
  (mapIndex c.TypeMap key).getD 0

/-- The body of the loop of `ConvertTypes` for the entry `(key, converter)`. -/
def convertEntry (rt : Runtime) (c : ConvertMap) (data : GoMap Value)
    (e : String × Converter) : GoMap Value :=
  match data.get e.1 with
  | none => data
  | some (.float64 value) =>
    if c.typeAt e.1 = ConvertTypeInt then data.set e.1 (.int64 (floatToInt64 rt value))
    else data
  | some (.float32 value) =>
    if c.typeAt e.1 = ConvertTypeInt then data.set e.1 (.int64 (floatToInt64 rt value))
    else data
  | some (.int value) =>
    if c.typeAt e.1 = ConvertTypeInt then data.set e.1 (.int64 (wrapInt64 value))
    else data
  | some (.int32 value) =>
    if c.typeAt e.1 = ConvertTypeInt then data.set e.1 (.int64 (wrapInt64 value))
    else data
  | some (.str value) =>
    match e.2.Convert rt value with
    | .ok v => data.set e.1 v
    | .error _ => data
  | some _ => data

/-- The method `ConvertMap.ConvertTypes`; `visit` is the order in which the
loop meets the entries of `c.ConverterMap`. -/
def ConvertTypes (rt : Runtime) (c : ConvertMap) (visit : List (String × Converter))
    (data : GoMap Value) : GoMap Value :=
  visit.foldl (convertEntry rt c) data

/-- The struct `fluent.TinyFluentRecord`. -/
structure TinyFluentRecord where
  Timestamp : Int
  Data : GoMap Value
  deriving DecidableEq, Repr

/-- The struct `RecordModifier`. -/
structure RecordModifier where
  convertMap : ConvertMap
  timeParse : Bool
  timeKey : String
  timeConverter : String
  deriving DecidableEq, Repr

/-- The timestamp step of `Modify`, on the field set left by conversion. -/
def rederiveTimestamp (rt : Runtime) (m : RecordModifier) (r : TinyFluentRecord) :
    TinyFluentRecord :=
  match r.Data.get m.timeKey with
  | some (.str t) =>
    match TimeConverter.Convert rt m.timeConverter t with
    | .ok ts => { r with Timestamp := ts.Unix }
    | .error _ => r
  | _ => r

/-- The method `RecordModifier.Modify`; `visit` is the order in which
`ConvertTypes` meets the entries of the converter map. -/
def Modify (rt : Runtime) (m : RecordModifier) (visit : List (String × Converter))
    (r : TinyFluentRecord) : TinyFluentRecord :=
  let r1 : TinyFluentRecord :=
    match m.convertMap.ConverterMap with
    | some _ => { r with Data := ConvertTypes rt m.convertMap visit r.Data }
    | none => r
  if !m.timeParse then r1 else rederiveTimestamp rt m r1

/-- The values `strconv.ParseFloat` and `time.Parse` return on the literals the
examples use, and the amd64 result of an unrepresentable `int64(f)`. -/
def sampleRuntime : Runtime where
  ParseFloat := fun s =>
    if s = "3.14" then .ok (.finite 7070651414971679 (-51))
    else if s = "42" then .ok (.finite 42 0)
    else if s = "2023" then .ok (.finite 2023 0)
    else .error .ErrSyntax
  timeParse := fun layout v =>
    if layout = "2006" ∧ v = "2023" then .ok { unixNano := 1672531200000000000 }
    else if layout = "2006-01-02T15:04:05Z" ∧ v = "2023-01-02T03:04:05Z" then
      .ok { unixNano := 1672628645000000000 }
    else .error ()
  floatOverflow := fun _ => -2 ^ 63

/-! ## The format selector -/

/-- The type `FileFormat`: the tags `FormatNone`, ... are the integers 0 to 3. -/
abbrev FileFormat := Int

/-- Tag 0. -/
def FormatNone : FileFormat := 0

/-- Tag 1. -/
def FormatLTSV : FileFormat := 1

/-- Tag 2. -/
def FormatJSON : FileFormat := 2

/-- Tag 3. -/
def FormatRegexp : FileFormat := 3

/-- Go `unicode.ToLower(r)`: the letters `A` to `Z` go to `a` to `z`, the
other ASCII characters stay, and a character beyond ASCII goes through the
Unicode case tables, here the function `unicodeLower`. -/
def toLowerRune (unicodeLower : Char → Char) (c : Char) : Char :=
  if c.toNat ≤ 127 then
    if 'A' ≤ c ∧ c ≤ 'Z' then Char.ofNat (c.toNat + 32) else c
  else unicodeLower c

/-- Go `strings.ToLower(s)`. -/
def ToLower (unicodeLower : Char → Char) (s : String) : String :=
  String.mk (s.data.map (toLowerRune unicodeLower))

/-- The method `FileFormat.UnmarshalText` on the receiver `f`: the tag the
receiver holds afterwards, and the error returned, if any. -/
def FileFormat.UnmarshalText (unicodeLower : Char → Char) (f : FileFormat) (text : String) :
    FileFormat × Option String :=
  if ToLower unicodeLower text = "ltsv" then (FormatLTSV, none)
  else if ToLower unicodeLower text = "json" then (FormatJSON, none)
  else if ToLower unicodeLower text = "regexp" then (FormatRegexp, none)
  else if ToLower unicodeLower text = "" ∨ ToLower unicodeLower text = "none" then
    (FormatNone, none)
  else (f, some ("Invalid Format " ++ text))

/-! ## Example modifiers and records -/

/-- A modifier holding the directive `a:bool,b:integer,c:float`, without
timestamp re-derivation. -/
def typedModifier : RecordModifier :=
  { convertMap := NewConvertMap "a:bool,b:integer,c:float",
    timeParse := false, timeKey := "", timeConverter := "" }

/-- A record whose fields `a`, `b`, `c` are text and `d` is not. -/
def textRecord : TinyFluentRecord :=
  { Timestamp := 0,
    Data := [("a", .str "true"), ("b", .str "42"), ("c", .str "3.14"), ("d", .bool false)] }

/-- A modifier holding the directive `b:integer`, without timestamp
re-derivation. -/
def integerModifier : RecordModifier :=
  { convertMap := NewConvertMap "b:integer",
    timeParse := false, timeKey := "", timeConverter := "" }

/-- A modifier that converts the field `time` to an integer and re-derives the
timestamp from the same field, read as a year. -/
def yearModifier : RecordModifier :=
  { convertMap := NewConvertMap "time:integer",
    timeParse := true, timeKey := "time", timeConverter := "2006" }

/-- A modifier that re-derives the timestamp from the field `time`, which its
directive `a:bool` does not name. -/
def stampModifier : RecordModifier :=
  { convertMap := NewConvertMap "a:bool",
    timeParse := true, timeKey := "time", timeConverter := "2006-01-02T15:04:05Z" }

/-! ## Auxiliary definitions for the proofs -/

/-- The type tag and converter a type keyword selects in `NewConvertMap`. -/
def keywordTarget (kw : String) : Option (ConvertType × Converter) :=
  if kw = "bool" then some (ConvertTypeBool, .convertBool)
  else if kw = "integer" then some (ConvertTypeInt, .convertInt)
  else if kw = "float" then some (ConvertTypeFloat, .convertFloat)
  else none

/-- The entry a fragment of the directive contributes, if any. -/
def subdefEntry (subdef : String) : Option (String × ConvertType × Converter) :=
  match cutChars ':' subdef.data with
  | none => none
  | some (a, b) =>
    match keywordTarget (String.mk b) with
    | none => none
    | some t => some (String.mk a, t.1, t.2)

/-- The type tag `NewConvertMap` stores next to a converter. -/
def converterTag : Converter → ConvertType
  | .convertBool => ConvertTypeBool
  | .convertInt => ConvertTypeInt
  | .convertFloat => ConvertTypeFloat

/-- What one iteration of `ConvertTypes` for `(key, conv)` makes of the value
`v` found at `key`. -/
def convertValue (rt : Runtime) (c : ConvertMap) (key : String) (conv : Converter)
    (v : Value) : Value :=
  match v with
  | .float64 f => if c.typeAt key = ConvertTypeInt then .int64 (floatToInt64 rt f) else v
  | .float32 f => if c.typeAt key = ConvertTypeInt then .int64 (floatToInt64 rt f) else v
  | .int i => if c.typeAt key = ConvertTypeInt then .int64 (wrapInt64 i) else v
  | .int32 i => if c.typeAt key = ConvertTypeInt then .int64 (wrapInt64 i) else v
  | .str s =>
    match conv.Convert rt s with
    | .ok w => w
    | .error _ => v
  | _ => v

/-- A value that an iteration of `ConvertTypes` for `(key, conv)` leaves alone. -/
def Settled (rt : Runtime) (c : ConvertMap) (key : String) (conv : Converter)
    (v : Value) : Prop :=
  match v with
  | .float64 _ => c.typeAt key ≠ ConvertTypeInt
  | .float32 _ => c.typeAt key ≠ ConvertTypeInt
  | .int _ => c.typeAt key ≠ ConvertTypeInt
  | .int32 _ => c.typeAt key ≠ ConvertTypeInt
  | .str s => ∃ err, conv.Convert rt s = .error err
  | _ => True

/-! ## Definitions that follow the specification -/

/-- A decimal digit. -/
def IsDecimalDigit (c : Char) : Prop :=
  '0' ≤ c ∧ c ≤ '9'

/-- The number a sequence of decimal digits writes in base 10. -/
def decimalValue (digits : List Char) : Nat :=
  digits.foldl (fun n c => 10 * n + (c.toNat - '0'.toNat)) 0

/-- The text `s` is a base-10 signed integer literal of value `n`: an optional
`+` or `-`, then one or more decimal digits. -/
def IsSignedDecimal (s : String) (n : Int) : Prop :=
  ∃ digits : List Char, digits ≠ [] ∧ (∀ c ∈ digits, IsDecimalDigit c) ∧
    ((s.data = digits ∧ n = decimalValue digits) ∨
      (s.data = '+' :: digits ∧ n = decimalValue digits) ∨
      (s.data = '-' :: digits ∧ n = -(decimalValue digits : Int)))

end Hydra

namespace Hydra

/-! ## Lemmas on maps and strings -/

theorem GoMap.get_set {V : Type} (m : GoMap V) (k : String) (v : V) (k' : String) :
    GoMap.get (GoMap.set m k v) k' = if k = k' then some v else GoMap.get m k' := by
  induction m with
  | nil => simp [GoMap.set, GoMap.get]
  | cons e m ih =>
    obtain ⟨k0, v0⟩ := e
    by_cases h : k0 = k
    · subst h
      by_cases h2 : k0 = k' <;> simp [GoMap.set, GoMap.get, h2]
    · by_cases h2 : k0 = k'
      · subst h2
        simp [GoMap.set, GoMap.get, h, Ne.symm h]
      · simp [GoMap.set, GoMap.get, h, h2, ih]

theorem GoMap.get_set_self {V : Type} (m : GoMap V) (k : String) (v : V) :
    GoMap.get (GoMap.set m k v) k = some v := by
  simp [GoMap.get_set]

theorem GoMap.get_set_of_ne {V : Type} (m : GoMap V) (k : String) (v : V) (k' : String)
    (h : k ≠ k') : GoMap.get (GoMap.set m k v) k' = GoMap.get m k' := by
  simp [GoMap.get_set, h]

theorem splitChars_ne_nil (sep : Char) (s : List Char) : splitChars sep s ≠ [] := by
  cases s with
  | nil => simp [splitChars]
  | cons c cs =>
    unfold splitChars
    split
    · simp
    · split <;> simp

/-- The fragments hold no separator, and joined by the separator they give
the text back. -/
theorem splitChars_spec (sep : Char) (s : List Char) :
    (∀ f ∈ splitChars sep s, sep ∉ f) ∧ List.intercalate [sep] (splitChars sep s) = s := by
  induction s with
  | nil => simp [splitChars, List.intercalate]
  | cons c cs ih =>
    unfold splitChars
    by_cases h : c = sep
    · subst h
      simp only [if_pos]
      have hne := splitChars_ne_nil c cs
      cases hsp : splitChars c cs with
      | nil => exact absurd hsp hne
      | cons f fs =>
        rw [hsp] at ih
        refine ⟨?_, ?_⟩
        · intro g hg
          rcases List.mem_cons.1 hg with rfl | hg
          · simp
          · exact ih.1 g hg
        · have := ih.2
          simp only [List.intercalate, List.intersperse] at this ⊢
          simp [this]
    · simp only [if_neg h]
      cases hsp : splitChars sep cs with
      | nil => exact absurd hsp (splitChars_ne_nil sep cs)
      | cons f fs =>
        rw [hsp] at ih
        refine ⟨?_, ?_⟩
        · intro g hg
          rcases List.mem_cons.1 hg with rfl | hg
          · simp only [List.mem_cons, not_or]
            exact ⟨Ne.symm h, ih.1 f (List.mem_cons_self _ _)⟩
          · exact ih.1 g (List.mem_cons_of_mem _ hg)
        · have := ih.2
          cases fs with
          | nil =>
            simp only [List.intercalate, List.intersperse] at this ⊢
            simpa using this
          | cons g gs =>
            simp only [List.intercalate, List.intersperse] at this ⊢
            simpa using this

theorem cutChars_eq_some (sep : Char) (s a b : List Char) :
    cutChars sep s = some (a, b) ↔ s = a ++ sep :: b ∧ sep ∉ a := by
  induction s generalizing a b with
  | nil => simp [cutChars]
  | cons c cs ih =>
    by_cases h : c = sep
    · subst h
      simp only [cutChars, if_pos, Option.some.injEq, Prod.mk.injEq]
      constructor
      · rintro ⟨rfl, rfl⟩
        simp
      · rintro ⟨h1, h2⟩
        cases a with
        | nil => simpa [eq_comm] using h1
        | cons x xs =>
          simp only [List.cons_append, List.cons.injEq] at h1
          exact absurd (by simp [h1.1]) h2
    · simp only [cutChars, if_neg h]
      cases hc : cutChars sep cs with
      | none =>
        simp only [false_iff, reduceCtorEq]
        rintro ⟨h1, h2⟩
        cases a with
        | nil =>
          simp only [List.nil_append, List.cons.injEq] at h1
          exact h h1.1
        | cons x xs =>
          simp only [List.cons_append, List.cons.injEq] at h1
          have := (ih xs b).2 ⟨h1.2, fun hm => h2 (List.mem_cons_of_mem _ hm)⟩
          simp [hc] at this
      | some p =>
        obtain ⟨a0, b0⟩ := p
        have h0 := (ih a0 b0).1 hc
        simp only [Option.some.injEq, Prod.mk.injEq]
        constructor
        · rintro ⟨rfl, rfl⟩
          refine ⟨by simp [h0.1], ?_⟩
          simp only [List.mem_cons, not_or]
          exact ⟨Ne.symm h, h0.2⟩
        · rintro ⟨h1, h2⟩
          cases a with
          | nil =>
            simp only [List.nil_append, List.cons.injEq] at h1
            exact absurd h1.1 h
          | cons x xs =>
            simp only [List.cons_append, List.cons.injEq] at h1
            have := (ih xs b).2 ⟨h1.2, fun hm => h2 (List.mem_cons_of_mem _ hm)⟩
            rw [hc] at this
            simp only [Option.some.injEq, Prod.mk.injEq] at this
            exact ⟨by rw [h1.1, this.1], this.2⟩

/-! ## Lemmas on the type directive parser -/

theorem keywordTarget_eq_some (kw : String) (t : ConvertType) (c : Converter) :
    keywordTarget kw = some (t, c) ↔
      (kw = "bool" ∧ t = ConvertTypeBool ∧ c = .convertBool) ∨
      (kw = "integer" ∧ t = ConvertTypeInt ∧ c = .convertInt) ∨
      (kw = "float" ∧ t = ConvertTypeFloat ∧ c = .convertFloat) := by
  unfold keywordTarget
  by_cases h1 : kw = "bool"
  · subst h1
    simp [eq_comm]
  · by_cases h2 : kw = "integer"
    · subst h2
      simp [eq_comm]
    · by_cases h3 : kw = "float"
      · subst h3
        simp [eq_comm]
      · simp [h1, h2, h3]

theorem keywordTarget_isSome (kw : String) :
    (keywordTarget kw).isSome ↔ (kw = "bool" ∨ kw = "integer" ∨ kw = "float") := by
  unfold keywordTarget
  by_cases h1 : kw = "bool"
  · simp [h1]
  · by_cases h2 : kw = "integer"
    · simp [h2]
    · by_cases h3 : kw = "float" <;> simp [h1, h2, h3]

theorem addSubdef_eq (m : ConvertMapBuild) (subdef : String) :
    addSubdef m subdef =
      match subdefEntry subdef with
      | none => m
      | some (k, t, c) =>
        { TypeMap := GoMap.set m.TypeMap k t, ConverterMap := GoMap.set m.ConverterMap k c } := by
  unfold addSubdef subdefEntry SplitN2 keywordTarget
  cases cutChars ':' subdef.data with
  | none => rfl
  | some p =>
    obtain ⟨a, b⟩ := p
    by_cases h1 : String.mk b = "bool"
    · simp [h1]
    · by_cases h2 : String.mk b = "integer"
      · simp [h2]
      · by_cases h3 : String.mk b = "float" <;> simp [h1, h2, h3]

theorem subdefEntry_eq_some (subdef k : String) (t : ConvertType) (c : Converter) :
    subdefEntry subdef = some (k, t, c) ↔
      ∃ kw, subdef = k ++ ":" ++ kw ∧ ':' ∉ k.data ∧ keywordTarget kw = some (t, c) := by
  unfold subdefEntry
  constructor
  · intro h
    cases hc : cutChars ':' subdef.data with
    | none => simp [hc] at h
    | some p =>
      obtain ⟨a, b⟩ := p
      rw [hc] at h
      cases hk : keywordTarget (String.mk b) with
      | none => simp [hk] at h
      | some tc =>
        simp only [hk, Option.some.injEq, Prod.mk.injEq] at h
        obtain ⟨rfl, rfl, rfl⟩ := h
        have h0 := (cutChars_eq_some _ _ _ _).1 hc
        refine ⟨String.mk b, ?_, h0.2, hk⟩
        apply String.ext
        simp [h0.1]
  · rintro ⟨kw, rfl, hk, ht⟩
    have hc : cutChars ':' (k ++ ":" ++ kw).data = some (k.data, kw.data) := by
      rw [cutChars_eq_some]
      exact ⟨by simp, hk⟩
    rw [hc]
    simp [ht]

/-- Fragments that do not name `k` leave the entries of `k` as they were. -/
theorem buildConvertMap_get_of_not_named (l : List String) (m : ConvertMapBuild) (k : String)
    (h : ∀ f ∈ l, ∀ t c, subdefEntry f ≠ some (k, t, c)) :
    GoMap.get (buildConvertMap l m).TypeMap k = GoMap.get m.TypeMap k ∧
      GoMap.get (buildConvertMap l m).ConverterMap k = GoMap.get m.ConverterMap k := by
  induction l generalizing m with
  | nil => exact ⟨rfl, rfl⟩
  | cons f fs ih =>
    have hfs := ih (addSubdef m f) (fun f' hf' => h f' (List.mem_cons_of_mem _ hf'))
    have hf := h f (List.mem_cons_self _ _)
    simp only [buildConvertMap, List.foldl_cons] at hfs ⊢
    rw [hfs.1, hfs.2, addSubdef_eq]
    cases he : subdefEntry f with
    | none => exact ⟨rfl, rfl⟩
    | some e =>
      obtain ⟨k0, t0, c0⟩ := e
      have hne : k0 ≠ k := by
        rintro rfl
        exact hf t0 c0 he
      exact ⟨GoMap.get_set_of_ne _ _ _ _ hne, GoMap.get_set_of_ne _ _ _ _ hne⟩

/-- The last fragment naming `k` decides the entries of `k`. -/
theorem buildConvertMap_get_of_last (pre post : List String) (f : String)
    (m : ConvertMapBuild) (k : String) (t : ConvertType) (c : Converter)
    (hf : subdefEntry f = some (k, t, c))
    (h : ∀ f' ∈ post, ∀ t' c', subdefEntry f' ≠ some (k, t', c')) :
    GoMap.get (buildConvertMap (pre ++ f :: post) m).TypeMap k = some t ∧
      GoMap.get (buildConvertMap (pre ++ f :: post) m).ConverterMap k = some c := by
  have hp := buildConvertMap_get_of_not_named post (addSubdef (buildConvertMap pre m) f) k h
  simp only [buildConvertMap, List.foldl_append, List.foldl_cons] at hp ⊢
  rw [hp.1, hp.2, addSubdef_eq, hf]
  exact ⟨GoMap.get_set_self _ _ _, GoMap.get_set_self _ _ _⟩

/-- A list with a fragment naming `k` splits at the last such fragment. -/
theorem exists_last_named (l : List String) (k : String)
    (h : ∃ f ∈ l, ∃ t c, subdefEntry f = some (k, t, c)) :
    ∃ pre f post t c, l = pre ++ f :: post ∧ subdefEntry f = some (k, t, c) ∧
      ∀ f' ∈ post, ∀ t' c', subdefEntry f' ≠ some (k, t', c') := by
  induction l with
  | nil => simp at h
  | cons g gs ih =>
    by_cases hgs : ∃ f ∈ gs, ∃ t c, subdefEntry f = some (k, t, c)
    · obtain ⟨pre, f, post, t, c, h1, h2, h3⟩ := ih hgs
      exact ⟨g :: pre, f, post, t, c, by simp [h1], h2, h3⟩
    · obtain ⟨f, hf, t, c, hft⟩ := h
      rcases List.mem_cons.1 hf with rfl | hf'
      · refine ⟨[], f, gs, t, c, rfl, hft, ?_⟩
        intro f' hf' t' c' hc
        exact hgs ⟨f', hf', t', c', hc⟩
      · exact absurd ⟨f, hf', t, c, hft⟩ hgs

/-- The two maps under construction always hold the same keys. -/
theorem buildConvertMap_keys (l : List String) (m : ConvertMapBuild)
    (h : ∀ k, (GoMap.get m.TypeMap k).isSome = (GoMap.get m.ConverterMap k).isSome) (k : String) :
    (GoMap.get (buildConvertMap l m).TypeMap k).isSome =
      (GoMap.get (buildConvertMap l m).ConverterMap k).isSome := by
  induction l generalizing m with
  | nil => exact h k
  | cons f fs ih =>
    simp only [buildConvertMap, List.foldl_cons] at ih ⊢
    apply ih
    intro k'
    rw [addSubdef_eq]
    cases he : subdefEntry f with
    | none => exact h k'
    | some e =>
      obtain ⟨k0, t0, c0⟩ := e
      simp only [GoMap.get_set]
      by_cases hk : k0 = k'
      · simp [hk]
      · simp [hk, h k']

/-- A fragment names `k` with a recognised keyword exactly when it contributes
an entry for `k`. -/
theorem subdefEntry_named_iff (f k : String) :
    (∃ t c, subdefEntry f = some (k, t, c)) ↔
      ∃ kw, f = k ++ ":" ++ kw ∧ ':' ∉ k.data ∧
        (kw = "bool" ∨ kw = "integer" ∨ kw = "float") := by
  constructor
  · rintro ⟨t, c, h⟩
    obtain ⟨kw, h1, h2, h3⟩ := (subdefEntry_eq_some f k t c).1 h
    refine ⟨kw, h1, h2, (keywordTarget_isSome kw).1 ?_⟩
    simp [h3]
  · rintro ⟨kw, h1, h2, h3⟩
    have h4 := (keywordTarget_isSome kw).2 h3
    obtain ⟨tc, htc⟩ := Option.isSome_iff_exists.1 h4
    exact ⟨tc.1, tc.2, (subdefEntry_eq_some f k tc.1 tc.2).2 ⟨kw, h1, h2, htc⟩⟩

theorem subdefEntry_of_no_colon (f : String) (h : ':' ∉ f.data) : subdefEntry f = none := by
  cases he : subdefEntry f with
  | none => rfl
  | some e =>
    obtain ⟨k, t, c⟩ := e
    obtain ⟨kw, h1, _, _⟩ := (subdefEntry_eq_some f k t c).1 he
    subst h1
    simp at h

theorem newConvertMap_maps (text : String) :
    (NewConvertMap text).TypeMap =
        some (buildConvertMap (Split text ',') ⟨[], []⟩).TypeMap ∧
      (NewConvertMap text).ConverterMap =
        some (buildConvertMap (Split text ',') ⟨[], []⟩).ConverterMap :=
  ⟨rfl, rfl⟩

/-- Both maps of `NewConvertMap` at a name that no fragment defines. -/
theorem newConvertMap_absent (text k : String)
    (h : ∀ f ∈ Split text ',', ∀ t c, subdefEntry f ≠ some (k, t, c)) :
    mapIndex (NewConvertMap text).TypeMap k = none ∧
      mapIndex (NewConvertMap text).ConverterMap k = none := by
  have := buildConvertMap_get_of_not_named (Split text ',') ⟨[], []⟩ k h
  simpa [newConvertMap_maps, mapIndex, GoMap.get] using this

/-- Both maps of `NewConvertMap` at a name whose last defining fragment is known. -/
theorem newConvertMap_last (text k f : String) (pre post : List String)
    (t : ConvertType) (c : Converter) (hs : Split text ',' = pre ++ f :: post)
    (hf : subdefEntry f = some (k, t, c))
    (h : ∀ f' ∈ post, ∀ t' c', subdefEntry f' ≠ some (k, t', c')) :
    mapIndex (NewConvertMap text).TypeMap k = some t ∧
      mapIndex (NewConvertMap text).ConverterMap k = some c := by
  have := buildConvertMap_get_of_last pre post f ⟨[], []⟩ k t c hf h
  rw [← hs] at this
  simpa [newConvertMap_maps, mapIndex] using this

/-! ## The type directive parser (C1 to C4) -/

/-- C1. A name `k` is a key of `NewConvertMap(text).TypeMap` exactly when some
comma-separated fragment of `text`, cut at its first `:`, reads `k:kw` with
`kw` one of `bool`, `integer`, `float`; a fragment without `:` leaves the maps
as they are, and the empty directive has no entries. -/
theorem newConvertMap_key_iff (text k : String) :
    ((mapIndex (NewConvertMap text).TypeMap k).isSome ↔
      ∃ frag ∈ Split text ',', ∃ kw, frag = k ++ ":" ++ kw ∧ ':' ∉ k.data ∧
        (kw = "bool" ∨ kw = "integer" ∨ kw = "float")) ∧
    (∀ (m : ConvertMapBuild) (frag : String), ':' ∉ frag.data → addSubdef m frag = m) ∧
    NewConvertMap "" = { TypeMap := some [], ConverterMap := some [] } := by
  refine ⟨?_, ?_, by decide⟩
  · constructor
    · intro h
      by_contra hn
      have habs := newConvertMap_absent text k (by
        intro f hf t c hc
        exact hn ⟨f, hf, (subdefEntry_named_iff f k).1 ⟨t, c, hc⟩⟩)
      simp [habs.1] at h
    · rintro ⟨frag, hfrag, hkw⟩
      obtain ⟨t, c, hc⟩ := (subdefEntry_named_iff frag k).2 hkw
      obtain ⟨pre, f, post, t', c', h1, h2, h3⟩ :=
        exists_last_named (Split text ',') k ⟨frag, hfrag, t, c, hc⟩
      simp [(newConvertMap_last text k f pre post t' c' h1 h2 h3).1]
  · intro m frag h
    rw [addSubdef_eq, subdefEntry_of_no_colon frag h]

/-- C2 fails as stated: in `a:bool,a:xyz` the entry `a:xyz` has an unknown
keyword, yet `a` is a key of both maps. -/
theorem newConvertMap_unknown_keyword_counterexample :
    "a:xyz" ∈ Split "a:bool,a:xyz" ',' ∧
      ("xyz" ≠ "bool" ∧ "xyz" ≠ "integer" ∧ "xyz" ≠ "float") ∧
      mapIndex (NewConvertMap "a:bool,a:xyz").TypeMap "a" = some ConvertTypeBool ∧
      mapIndex (NewConvertMap "a:bool,a:xyz").ConverterMap "a" = some .convertBool := by
  decide

/-- C2, amended. If every entry `name:kw` of `text` has an unknown keyword,
then `name` is absent from both maps. -/
theorem newConvertMap_unknown_keyword (text name : String)
    (hall : ∀ frag ∈ Split text ',', ∀ kw', frag = name ++ ":" ++ kw' → ':' ∉ name.data →
      kw' ≠ "bool" ∧ kw' ≠ "integer" ∧ kw' ≠ "float") :
    mapIndex (NewConvertMap text).TypeMap name = none ∧
      mapIndex (NewConvertMap text).ConverterMap name = none := by
  apply newConvertMap_absent
  intro f hf t c hc
  obtain ⟨kw', h1, h2, h3⟩ := (subdefEntry_named_iff f name).1 ⟨t, c, hc⟩
  have := hall f hf kw' h1 h2
  rcases h3 with h3 | h3 | h3
  · exact this.1 h3
  · exact this.2.1 h3
  · exact this.2.2 h3

/-- Witness of C2, amended: in `b:integer,a:xyz` the name `a` is absent. -/
theorem newConvertMap_unknown_keyword_witness :
    mapIndex (NewConvertMap "b:integer,a:xyz").TypeMap "a" = none ∧
      mapIndex (NewConvertMap "b:integer,a:xyz").ConverterMap "a" = none :=
  newConvertMap_unknown_keyword "b:integer,a:xyz" "a" (by
    intro frag hfrag kw' h _
    have hf : frag = "b:integer" ∨ frag = "a:xyz" := by
      have : Split "b:integer,a:xyz" ',' = ["b:integer", "a:xyz"] := by decide
      rw [this] at hfrag
      simpa using hfrag
    have hd : frag.data = 'a' :: ':' :: kw'.data := by
      rw [h]
      simp
    rcases hf with rfl | rfl
    · simp at hd
    · have hk : kw' = "xyz" := by
        apply String.ext
        have : ("a:xyz" : String).data = ['a', ':', 'x', 'y', 'z'] := rfl
        rw [this] at hd
        simp only [List.cons.injEq, true_and] at hd
        rw [← hd]
      subst hk
      decide)

/-- C3. When the fragments of `text` are `pre`, then `k:kw` with a recognised
keyword, then `post`, and no fragment of `post` gives `k` a recognised keyword,
both maps hold for `k` the tag and converter of `kw`. -/
theorem newConvertMap_last_wins (text k kw : String) (pre post : List String)
    (hs : Split text ',' = pre ++ (k ++ ":" ++ kw) :: post)
    (hk : ':' ∉ k.data)
    (hpost : ∀ frag ∈ post, ∀ kw', frag = k ++ ":" ++ kw' →
      kw' ≠ "bool" ∧ kw' ≠ "integer" ∧ kw' ≠ "float") :
    (kw = "bool" →
      mapIndex (NewConvertMap text).TypeMap k = some ConvertTypeBool ∧
        mapIndex (NewConvertMap text).ConverterMap k = some .convertBool) ∧
    (kw = "integer" →
      mapIndex (NewConvertMap text).TypeMap k = some ConvertTypeInt ∧
        mapIndex (NewConvertMap text).ConverterMap k = some .convertInt) ∧
    (kw = "float" →
      mapIndex (NewConvertMap text).TypeMap k = some ConvertTypeFloat ∧
        mapIndex (NewConvertMap text).ConverterMap k = some .convertFloat) := by
  have hpost' : ∀ f' ∈ post, ∀ t' c', subdefEntry f' ≠ some (k, t', c') := by
    intro f' hf' t' c' hc
    obtain ⟨kw', h1, _, h3⟩ := (subdefEntry_named_iff f' k).1 ⟨t', c', hc⟩
    have := hpost f' hf' kw' h1
    rcases h3 with h3 | h3 | h3
    · exact this.1 h3
    · exact this.2.1 h3
    · exact this.2.2 h3
  have key : ∀ t c, keywordTarget kw = some (t, c) →
      mapIndex (NewConvertMap text).TypeMap k = some t ∧
        mapIndex (NewConvertMap text).ConverterMap k = some c := by
    intro t c htc
    exact newConvertMap_last text k _ pre post t c hs
      ((subdefEntry_eq_some _ k t c).2 ⟨kw, rfl, hk, htc⟩) hpost'
  refine ⟨fun h => key _ _ ?_, fun h => key _ _ ?_, fun h => key _ _ ?_⟩
  · exact (keywordTarget_eq_some _ _ _).2 (Or.inl ⟨h, rfl, rfl⟩)
  · exact (keywordTarget_eq_some _ _ _).2 (Or.inr (Or.inl ⟨h, rfl, rfl⟩))
  · exact (keywordTarget_eq_some _ _ _).2 (Or.inr (Or.inr ⟨h, rfl, rfl⟩))

/-- Witness of C3: in `a:bool,b:float,a:integer,b:xyz` the name `a` is an integer field. -/
theorem newConvertMap_last_wins_witness :
    mapIndex (NewConvertMap "a:bool,b:float,a:integer,b:xyz").TypeMap "a" = some ConvertTypeInt ∧
      mapIndex (NewConvertMap "a:bool,b:float,a:integer,b:xyz").ConverterMap "a" =
        some .convertInt :=
  (newConvertMap_last_wins "a:bool,b:float,a:integer,b:xyz" "a" "integer"
    ["a:bool", "b:float"] ["b:xyz"] (by decide) (by decide) (by
      intro frag hfrag kw' h
      simp only [List.mem_singleton] at hfrag
      subst hfrag
      have : ("b:xyz" : String).data = ("a" ++ ":" ++ kw').data := by rw [h]
      simp at this)).2.1 rfl

/-- C4. The type map and the converter map of `NewConvertMap(text)` have the
same keys. -/
theorem newConvertMap_same_keys (text k : String) :
    (mapIndex (NewConvertMap text).TypeMap k).isSome ↔
      (mapIndex (NewConvertMap text).ConverterMap k).isSome := by
  have := buildConvertMap_keys (Split text ',') ⟨[], []⟩ (fun _ => rfl) k
  simp only [newConvertMap_maps, mapIndex]
  rw [this]

/-! ## Lemmas on `ConvertTypes` -/

theorem GoMap.range_mem_iff {V : Type} (m : GoMap V) (k : String) (v : V) :
    (k, v) ∈ GoMap.range m ↔ GoMap.get m k = some v := by
  induction m with
  | nil => simp [GoMap.range, GoMap.get]
  | cons e m ih =>
    obtain ⟨k0, v0⟩ := e
    by_cases h : k0 = k
    · subst h
      simp [GoMap.range, GoMap.get, eq_comm]
    · simp [GoMap.range, GoMap.get, h, Ne.symm h, ih]

theorem GoMap.range_nodup {V : Type} (m : GoMap V) :
    ((GoMap.range m).map Prod.fst).Nodup := by
  induction m with
  | nil => simp [GoMap.range]
  | cons e m ih =>
    obtain ⟨k0, v0⟩ := e
    simp only [GoMap.range, List.map_cons, List.nodup_cons]
    constructor
    · simp
    · exact ih.sublist ((List.filter_sublist _).map _)

/-- A visiting order of a map meets every key once, with its converter. -/
theorem visit_spec {V : Type} (cm : Option (GoMap V)) (visit : List (String × V))
    (hv : visit.Perm (mapRange cm)) :
    (visit.map Prod.fst).Nodup ∧ ∀ k v, (k, v) ∈ visit ↔ mapIndex cm k = some v := by
  constructor
  · rw [(hv.map Prod.fst).nodup_iff]
    cases cm with
    | none => simp [mapRange]
    | some m => exact GoMap.range_nodup m
  · intro k v
    rw [hv.mem_iff]
    cases cm with
    | none => simp [mapRange, mapIndex]
    | some m => exact GoMap.range_mem_iff m k v

theorem convertEntry_get (rt : Runtime) (c : ConvertMap) (data : GoMap Value)
    (k : String) (conv : Converter) (k' : String) :
    GoMap.get (convertEntry rt c data (k, conv)) k' =
      if k = k' then (GoMap.get data k).map (convertValue rt c k conv)
      else GoMap.get data k' := by
  unfold convertEntry
  by_cases hk : k = k'
  · subst hk
    simp only [if_pos]
    cases hg : GoMap.get data k with
    | none => simp [hg]
    | some v =>
      cases v <;> simp only [convertValue, Option.map_some'] <;>
        first
        | exact hg
        | (split <;> simp [GoMap.get_set, hg])
  · simp only [if_neg hk]
    cases hg : GoMap.get data k with
    | none => rfl
    | some v =>
      cases v <;> simp only <;>
        first
        | rfl
        | (split <;> simp [GoMap.get_set, hk])

/-- Entries for other keys leave the field `k` as it was. -/
theorem convertTypes_get_of_not_visited (rt : Runtime) (c : ConvertMap)
    (visit : List (String × Converter)) (data : GoMap Value) (k : String)
    (h : k ∉ visit.map Prod.fst) :
    GoMap.get (ConvertTypes rt c visit data) k = GoMap.get data k := by
  induction visit generalizing data with
  | nil => rfl
  | cons e rest ih =>
    obtain ⟨k0, conv0⟩ := e
    simp only [List.map_cons, List.mem_cons, not_or] at h
    simp only [ConvertTypes, List.foldl_cons] at ih ⊢
    rw [ih _ h.2, convertEntry_get, if_neg (Ne.symm h.1)]

/-- The field `k` after `ConvertTypes`, when the order meets `k` once. -/
theorem convertTypes_get_of_visited (rt : Runtime) (c : ConvertMap)
    (visit : List (String × Converter)) (data : GoMap Value) (k : String) (conv : Converter)
    (hnd : (visit.map Prod.fst).Nodup) (hmem : (k, conv) ∈ visit) :
    GoMap.get (ConvertTypes rt c visit data) k =
      (GoMap.get data k).map (convertValue rt c k conv) := by
  induction visit generalizing data with
  | nil => simp at hmem
  | cons e rest ih =>
    obtain ⟨k0, conv0⟩ := e
    simp only [List.map_cons, List.nodup_cons] at hnd
    rcases List.mem_cons.1 hmem with heq | hrest
    · simp only [Prod.mk.injEq] at heq
      obtain ⟨rfl, rfl⟩ := heq
      have := convertTypes_get_of_not_visited rt c rest (convertEntry rt c data (k, conv)) k hnd.1
      simp only [ConvertTypes, List.foldl_cons] at this ⊢
      rw [this, convertEntry_get, if_pos rfl]
    · have hne : k0 ≠ k := by
        rintro rfl
        exact hnd.1 (List.mem_map_of_mem Prod.fst hrest)
      have := ih (convertEntry rt c data (k0, conv0)) hnd.2 hrest
      simp only [ConvertTypes, List.foldl_cons] at this ⊢
      rw [this, convertEntry_get, if_neg hne]

/-- The field `k` after `ConvertTypes`, for every order of the converter map. -/
theorem convertTypes_get (rt : Runtime) (c : ConvertMap)
    (visit : List (String × Converter)) (data : GoMap Value) (k : String)
    (hv : visit.Perm (mapRange c.ConverterMap)) :
    GoMap.get (ConvertTypes rt c visit data) k =
      match mapIndex c.ConverterMap k with
      | some conv => (GoMap.get data k).map (convertValue rt c k conv)
      | none => GoMap.get data k := by
  obtain ⟨hnd, hmem⟩ := visit_spec c.ConverterMap visit hv
  cases hc : mapIndex c.ConverterMap k with
  | some conv =>
    exact convertTypes_get_of_visited rt c visit data k conv hnd ((hmem k conv).2 hc)
  | none =>
    apply convertTypes_get_of_not_visited
    intro hk
    obtain ⟨e, he, rfl⟩ := List.mem_map.1 hk
    have := (hmem e.1 e.2).1 he
    rw [hc] at this
    exact absurd this (by simp)

theorem rederiveTimestamp_data (rt : Runtime) (m : RecordModifier) (r : TinyFluentRecord) :
    (rederiveTimestamp rt m r).Data = r.Data := by
  unfold rederiveTimestamp
  split
  · split <;> rfl
  · rfl

/-- The field set after `Modify` is the one `ConvertTypes` leaves. -/
theorem modify_data (rt : Runtime) (m : RecordModifier) (visit : List (String × Converter))
    (r : TinyFluentRecord) (hv : visit.Perm (mapRange m.convertMap.ConverterMap)) :
    (Modify rt m visit r).Data = ConvertTypes rt m.convertMap visit r.Data := by
  have h1 : (match m.convertMap.ConverterMap with
      | some _ => ({ r with Data := ConvertTypes rt m.convertMap visit r.Data } : TinyFluentRecord)
      | none => r).Data = ConvertTypes rt m.convertMap visit r.Data := by
    cases hc : m.convertMap.ConverterMap with
    | some cm => rfl
    | none =>
      rw [hc] at hv
      have : visit = [] := by simpa [mapRange] using hv
      subst this
      rfl
  unfold Modify
  simp only
  split
  · exact h1
  · rw [rederiveTimestamp_data]
    exact h1

/-! ## Field conversion (C5 to C8) -/

/-- C5. If `k` is a key of the directive with converter `conv`, the record
holds the text `s` at `k`, and `conv` converts `s` to `v`, then after `Modify`
the record holds `v` at `k`, whatever the order of the loop. -/
theorem modify_converts_text (rt : Runtime) (m : RecordModifier)
    (visit : List (String × Converter)) (r : TinyFluentRecord) (k s : String)
    (conv : Converter) (v : Value)
    (hv : visit.Perm (mapRange m.convertMap.ConverterMap))
    (hc : mapIndex m.convertMap.ConverterMap k = some conv)
    (hs : GoMap.get r.Data k = some (.str s))
    (hok : conv.Convert rt s = .ok v) :
    GoMap.get (Modify rt m visit r).Data k = some v := by
  rw [modify_data rt m visit r hv, convertTypes_get rt m.convertMap visit r.Data k hv, hc]
  simp [hs, convertValue, hok]

/-- C6. If `k` is a key of the directive with converter `conv`, the record
holds the text `s` at `k`, and `conv` fails on `s`, then after `Modify` the
record still holds the text `s` at `k`. -/
theorem modify_keeps_text_on_failure (rt : Runtime) (m : RecordModifier)
    (visit : List (String × Converter)) (r : TinyFluentRecord) (k s : String)
    (conv : Converter) (err : NumError)
    (hv : visit.Perm (mapRange m.convertMap.ConverterMap))
    (hc : mapIndex m.convertMap.ConverterMap k = some conv)
    (hs : GoMap.get r.Data k = some (.str s))
    (hfail : conv.Convert rt s = .error err) :
    GoMap.get (Modify rt m visit r).Data k = some (.str s) := by
  rw [modify_data rt m visit r hv, convertTypes_get rt m.convertMap visit r.Data k hv, hc]
  simp [hs, convertValue, hfail]

/-- Witness of C5: the directive `a:bool,b:integer,c:float` on the texts `true`, `42`, `3.14`. -/
theorem modify_converts_text_witness :
    GoMap.get (Modify sampleRuntime typedModifier
        [("c", .convertFloat), ("a", .convertBool), ("b", .convertInt)] textRecord).Data "a" =
      some (.bool true) ∧
    GoMap.get (Modify sampleRuntime typedModifier
        [("c", .convertFloat), ("a", .convertBool), ("b", .convertInt)] textRecord).Data "b" =
      some (.int64 42) ∧
    GoMap.get (Modify sampleRuntime typedModifier
        [("c", .convertFloat), ("a", .convertBool), ("b", .convertInt)] textRecord).Data "c" =
      some (.float64 (.finite 7070651414971679 (-51))) :=
  ⟨modify_converts_text sampleRuntime typedModifier _ textRecord "a" "true" .convertBool _
      (by decide) (by decide) (by decide) rfl,
    modify_converts_text sampleRuntime typedModifier _ textRecord "b" "42" .convertInt _
      (by decide) (by decide) (by decide) rfl,
    modify_converts_text sampleRuntime typedModifier _ textRecord "c" "3.14" .convertFloat _
      (by decide) (by decide) (by decide) rfl⟩

/-- Witness of C6: the directive `a:bool` leaves the text `notabool`. -/
theorem modify_keeps_text_on_failure_witness :
    GoMap.get (Modify sampleRuntime
        { convertMap := NewConvertMap "a:bool", timeParse := false, timeKey := "",
          timeConverter := "" }
        [("a", .convertBool)] { Timestamp := 0, Data := [("a", .str "notabool")] }).Data "a" =
      some (.str "notabool") :=
  modify_keeps_text_on_failure sampleRuntime _ _ _ "a" "notabool" .convertBool .ErrSyntax
    (by decide) (by decide) (by decide) rfl

theorem wrapInt64_of_range (i : Int) (h1 : -2 ^ 63 ≤ i) (h2 : i < 2 ^ 63) :
    wrapInt64 i = i := by
  unfold wrapInt64
  omega

theorem wrapInt64_range (i : Int) : -2 ^ 63 ≤ wrapInt64 i ∧ wrapInt64 i < 2 ^ 63 := by
  unfold wrapInt64
  omega

theorem floatToInt64_range (rt : Runtime) (f : GoFloat) :
    -2 ^ 63 ≤ floatToInt64 rt f ∧ floatToInt64 rt f < 2 ^ 63 := by
  unfold floatToInt64
  split
  · split
    · assumption
    · exact wrapInt64_range _
  · exact wrapInt64_range _

/-- C7 fails as stated: the float64 `2 ^ 63` under the directive `b:integer`
becomes an `int64`, which cannot equal its integer part `2 ^ 63`. -/
theorem modify_integer_from_float_counterexample :
    GoFloat.truncate (.finite 1 63) = some (2 ^ 63) ∧
    mapIndex integerModifier.convertMap.TypeMap "b" = some ConvertTypeInt ∧
    ∀ rt : Runtime, ∃ i : Int,
      GoMap.get (Modify rt integerModifier [("b", .convertInt)]
        { Timestamp := 0, Data := [("b", .float64 (.finite 1 63))] }).Data "b" =
          some (.int64 i) ∧ i ≠ 2 ^ 63 := by
  refine ⟨by decide, by decide, fun rt => ⟨floatToInt64 rt (.finite 1 63), ?_, ?_⟩⟩
  · rw [modify_data rt integerModifier _ _ (by decide),
      convertTypes_get rt integerModifier.convertMap _ _ "b" (by decide)]
    have h1 : mapIndex integerModifier.convertMap.ConverterMap "b" = some .convertInt := by
      decide
    have h2 : integerModifier.convertMap.typeAt "b" = ConvertTypeInt := by decide
    rw [h1]
    simp [GoMap.get, convertValue, h2]
  · have := (floatToInt64_range rt (.finite 1 63)).2
    omega

/-- C7, amended. For a key `k` of the directive whose target type is Integer:
a float64 or float32 whose integer part `t` lies in the `int64` range becomes
the `int64` `t`, and an int or int32 `i` becomes the `int64` `i`.  Every
float64 or float32, a NaN, an infinity or a float whose integer part is
outside the `int64` range included, becomes an `int64`; for those three kinds
its value is the implementation-dependent one, reduced to the `int64` range. -/
theorem modify_integer_from_numeric (rt : Runtime) (m : RecordModifier)
    (visit : List (String × Converter)) (r : TinyFluentRecord) (k : String)
    (conv : Converter)
    (hv : visit.Perm (mapRange m.convertMap.ConverterMap))
    (hc : mapIndex m.convertMap.ConverterMap k = some conv)
    (ht : m.convertMap.typeAt k = ConvertTypeInt) :
    (∀ f t, GoMap.get r.Data k = some (.float64 f) ∨ GoMap.get r.Data k = some (.float32 f) →
      f.truncate = some t → -2 ^ 63 ≤ t → t < 2 ^ 63 →
      GoMap.get (Modify rt m visit r).Data k = some (.int64 t)) ∧
    (∀ i, GoMap.get r.Data k = some (.int i) ∨ GoMap.get r.Data k = some (.int32 i) →
      -2 ^ 63 ≤ i → i < 2 ^ 63 →
      GoMap.get (Modify rt m visit r).Data k = some (.int64 i)) ∧
    (∀ f, GoMap.get r.Data k = some (.float64 f) ∨ GoMap.get r.Data k = some (.float32 f) →
      ∃ i, GoMap.get (Modify rt m visit r).Data k = some (.int64 i) ∧
        -2 ^ 63 ≤ i ∧ i < 2 ^ 63 ∧
        (f.truncate = none ∨ (∃ t, f.truncate = some t ∧ (t < -2 ^ 63 ∨ 2 ^ 63 ≤ t)) →
          i = wrapInt64 (rt.floatOverflow f))) := by
  rw [modify_data rt m visit r hv, convertTypes_get rt m.convertMap visit r.Data k hv, hc]
  refine ⟨?_, ?_, ?_⟩
  · intro f t hf htr h1 h2
    have hft : floatToInt64 rt f = t := by
      unfold floatToInt64
      rw [htr]
      exact if_pos ⟨h1, h2⟩
    rcases hf with hf | hf <;> simp [hf, convertValue, ht, hft]
  · intro i hi h1 h2
    rcases hi with hi | hi <;>
      simp [hi, convertValue, ht, wrapInt64_of_range i h1 h2]
  · intro f hf
    have hrange := floatToInt64_range rt f
    refine ⟨floatToInt64 rt f, ?_, hrange.1, hrange.2, ?_⟩
    · rcases hf with hf | hf <;> simp [hf, convertValue, ht]
    · intro hbad
      unfold floatToInt64
      rcases hbad with hnone | ⟨t, hsome, hout⟩
      · rw [hnone]
      · rw [hsome]
        apply if_neg
        rintro ⟨h1, h2⟩
        rcases hout with h | h
        · exact absurd h1 (not_le.2 h)
        · exact absurd h2 (not_lt.2 h)

/-- Witness of C7, amended: the float64 nearest to 42.9 becomes 42, the int32
-7 becomes -7, and a NaN becomes an int64, here the amd64 value `-2 ^ 63`. -/
theorem modify_integer_from_numeric_witness :
    GoMap.get (Modify sampleRuntime integerModifier [("b", .convertInt)]
      { Timestamp := 0, Data := [("b", .float64 (.finite 6037638250443571 (-47)))] }).Data "b" =
        some (.int64 42) ∧
    GoMap.get (Modify sampleRuntime integerModifier [("b", .convertInt)]
      { Timestamp := 0, Data := [("b", .int32 (-7))] }).Data "b" = some (.int64 (-7)) ∧
    (∃ i, GoMap.get (Modify sampleRuntime integerModifier [("b", .convertInt)]
        { Timestamp := 0, Data := [("b", .float64 .nan)] }).Data "b" = some (.int64 i) ∧
      -2 ^ 63 ≤ i ∧ i < 2 ^ 63 ∧
      (GoFloat.truncate .nan = none ∨
          (∃ t, GoFloat.truncate .nan = some t ∧ (t < -2 ^ 63 ∨ 2 ^ 63 ≤ t)) →
        i = wrapInt64 (sampleRuntime.floatOverflow .nan))) ∧
    GoMap.get (Modify sampleRuntime integerModifier [("b", .convertInt)]
      { Timestamp := 0, Data := [("b", .float64 .nan)] }).Data "b" =
        some (.int64 (-9223372036854775808)) :=
  ⟨(modify_integer_from_numeric sampleRuntime integerModifier [("b", .convertInt)]
      { Timestamp := 0, Data := [("b", .float64 (.finite 6037638250443571 (-47)))] } "b"
      .convertInt (by decide) (by decide) (by decide)).1
      (.finite 6037638250443571 (-47)) 42 (Or.inl (by decide))
      (by decide) (by decide) (by decide),
    (modify_integer_from_numeric sampleRuntime integerModifier [("b", .convertInt)]
      { Timestamp := 0, Data := [("b", .int32 (-7))] } "b"
      .convertInt (by decide) (by decide) (by decide)).2.1 (-7) (Or.inr (by decide))
      (by decide) (by decide),
    (modify_integer_from_numeric sampleRuntime integerModifier [("b", .convertInt)]
      { Timestamp := 0, Data := [("b", .float64 .nan)] } "b"
      .convertInt (by decide) (by decide) (by decide)).2.2 .nan (Or.inl (by decide)),
    by decide⟩

/-- One iteration of the loop keeps a non-text value, or replaces a float64,
float32, int or int32 under an Integer target by an `int64`, which later
iterations keep. -/
theorem convertEntry_non_text (rt : Runtime) (c : ConvertMap) (data : GoMap Value)
    (e : String × Converter) (k : String) (v : Value) (hns : ∀ s, v ≠ .str s)
    (h : GoMap.get data k = some v ∨
      (c.typeAt k = ConvertTypeInt ∧ ∃ i, GoMap.get data k = some (.int64 i) ∧
        ((∃ f, v = .float64 f) ∨ (∃ f, v = .float32 f) ∨ (∃ j, v = .int j) ∨
          (∃ j, v = .int32 j)))) :
    GoMap.get (convertEntry rt c data e) k = some v ∨
      (c.typeAt k = ConvertTypeInt ∧ ∃ i, GoMap.get (convertEntry rt c data e) k = some (.int64 i) ∧
        ((∃ f, v = .float64 f) ∨ (∃ f, v = .float32 f) ∨ (∃ j, v = .int j) ∨
          (∃ j, v = .int32 j))) := by
  obtain ⟨k0, conv0⟩ := e
  rw [convertEntry_get]
  by_cases hk : k0 = k
  · subst hk
    simp only [if_pos]
    rcases h with h | ⟨ht, i, hi, hnum⟩
    · rw [h]
      by_cases ht : c.typeAt k0 = ConvertTypeInt
      · cases v with
        | str s => exact absurd rfl (hns s)
        | float64 f =>
          exact Or.inr ⟨ht, floatToInt64 rt f, by simp [convertValue, ht], Or.inl ⟨f, rfl⟩⟩
        | float32 f =>
          exact Or.inr ⟨ht, floatToInt64 rt f, by simp [convertValue, ht],
            Or.inr (Or.inl ⟨f, rfl⟩)⟩
        | int j =>
          exact Or.inr ⟨ht, wrapInt64 j, by simp [convertValue, ht],
            Or.inr (Or.inr (Or.inl ⟨j, rfl⟩))⟩
        | int32 j =>
          exact Or.inr ⟨ht, wrapInt64 j, by simp [convertValue, ht],
            Or.inr (Or.inr (Or.inr ⟨j, rfl⟩))⟩
        | null => exact Or.inl rfl
        | bool b => exact Or.inl rfl
        | int64 j => exact Or.inl rfl
        | other id => exact Or.inl rfl
      · left
        cases v with
        | str s => exact absurd rfl (hns s)
        | float64 f => simp [convertValue, ht]
        | float32 f => simp [convertValue, ht]
        | int j => simp [convertValue, ht]
        | int32 j => simp [convertValue, ht]
        | null => rfl
        | bool b => rfl
        | int64 j => rfl
        | other id => rfl
    · exact Or.inr ⟨ht, i, by simp [hi, convertValue], hnum⟩
  · simp only [if_neg hk]
    exact h

/-- C8. A field of `data` holding a non-text value `v` still holds `v` after
`ConvertTypes`, unless the target type of the field is Integer and `v` is a
float64, float32, int or int32. -/
theorem convertTypes_non_text_frame (rt : Runtime) (c : ConvertMap)
    (visit : List (String × Converter)) (data : GoMap Value) (k : String) (v : Value)
    (hg : GoMap.get data k = some v) (hns : ∀ s, v ≠ .str s) :
    (GoMap.get (ConvertTypes rt c visit data) k ≠ some v →
      c.typeAt k = ConvertTypeInt ∧
        ((∃ f, v = .float64 f) ∨ (∃ f, v = .float32 f) ∨ (∃ j, v = .int j) ∨
          (∃ j, v = .int32 j))) ∧
    (c.typeAt k ≠ ConvertTypeInt ∨ v = .null ∨ (∃ b, v = .bool b) ∨ (∃ j, v = .int64 j) ∨
        (∃ id, v = .other id) →
      GoMap.get (ConvertTypes rt c visit data) k = some v) := by
  have key : ∀ (visit : List (String × Converter)) (d : GoMap Value),
      (GoMap.get d k = some v ∨
        (c.typeAt k = ConvertTypeInt ∧ ∃ i, GoMap.get d k = some (.int64 i) ∧
          ((∃ f, v = .float64 f) ∨ (∃ f, v = .float32 f) ∨ (∃ j, v = .int j) ∨
            (∃ j, v = .int32 j)))) →
      (GoMap.get (ConvertTypes rt c visit d) k = some v ∨
        (c.typeAt k = ConvertTypeInt ∧
          ((∃ f, v = .float64 f) ∨ (∃ f, v = .float32 f) ∨ (∃ j, v = .int j) ∨
            (∃ j, v = .int32 j)))) := by
    intro visit
    induction visit with
    | nil =>
      rintro d (h | ⟨ht, _, _, hnum⟩)
      · exact Or.inl h
      · exact Or.inr ⟨ht, hnum⟩
    | cons e rest ih =>
      intro d h
      exact ih _ (convertEntry_non_text rt c d e k v hns h)
  have main := key visit data (Or.inl hg)
  constructor
  · intro hne
    rcases main with h | h
    · exact absurd h hne
    · exact h
  · intro hcase
    rcases main with h | ⟨ht, hnum⟩
    · exact h
    · rcases hcase with h | h | ⟨b, h⟩ | ⟨j, h⟩ | ⟨id, h⟩
      · exact absurd ht h
      all_goals
        subst h
        rcases hnum with ⟨_, h⟩ | ⟨_, h⟩ | ⟨_, h⟩ | ⟨_, h⟩ <;> cases h

/-- Witness of C8: a bool under an Integer target and a float64 under a Float target stay. -/
theorem convertTypes_non_text_frame_witness :
    GoMap.get (ConvertTypes sampleRuntime (NewConvertMap "d:integer,e:float")
        [("e", .convertFloat), ("d", .convertInt)]
        [("d", .bool false), ("e", .float64 (.finite 3 (-1)))]) "d" = some (.bool false) ∧
    GoMap.get (ConvertTypes sampleRuntime (NewConvertMap "d:integer,e:float")
        [("e", .convertFloat), ("d", .convertInt)]
        [("d", .bool false), ("e", .float64 (.finite 3 (-1)))]) "e" =
      some (.float64 (.finite 3 (-1))) :=
  ⟨(convertTypes_non_text_frame sampleRuntime (NewConvertMap "d:integer,e:float")
      [("e", .convertFloat), ("d", .convertInt)]
      [("d", .bool false), ("e", .float64 (.finite 3 (-1)))] "d" (.bool false)
      (by decide) (by intro s; simp)).2 (Or.inr (Or.inr (Or.inl ⟨false, rfl⟩))),
    (convertTypes_non_text_frame sampleRuntime (NewConvertMap "d:integer,e:float")
      [("e", .convertFloat), ("d", .convertInt)]
      [("d", .bool false), ("e", .float64 (.finite 3 (-1)))] "e" (.float64 (.finite 3 (-1)))
      (by decide) (by intro s; simp)).2 (Or.inl (by decide))⟩

/-! ## Lemmas on `Modify` -/

/-- The tag stored for a key is the tag of the converter stored for it. -/
theorem buildConvertMap_tags (l : List String) (m : ConvertMapBuild)
    (h : ∀ k, GoMap.get m.TypeMap k = (GoMap.get m.ConverterMap k).map converterTag)
    (k : String) :
    GoMap.get (buildConvertMap l m).TypeMap k =
      (GoMap.get (buildConvertMap l m).ConverterMap k).map converterTag := by
  induction l generalizing m with
  | nil => exact h k
  | cons f fs ih =>
    simp only [buildConvertMap, List.foldl_cons] at ih ⊢
    apply ih
    intro k'
    rw [addSubdef_eq]
    cases he : subdefEntry f with
    | none => exact h k'
    | some e =>
      obtain ⟨k0, t0, c0⟩ := e
      obtain ⟨kw, _, _, hkw⟩ := (subdefEntry_eq_some f k0 t0 c0).1 he
      have ht : t0 = converterTag c0 := by
        rcases (keywordTarget_eq_some kw t0 c0).1 hkw with ⟨_, h1, h2⟩ | ⟨_, h1, h2⟩ | ⟨_, h1, h2⟩ <;>
          rw [h1, h2] <;> rfl
      simp only [GoMap.get_set]
      by_cases hk : k0 = k'
      · simp [hk, ht]
      · simp [hk, h k']

theorem newConvertMap_typeAt (text k : String) (conv : Converter)
    (h : mapIndex (NewConvertMap text).ConverterMap k = some conv) :
    (NewConvertMap text).typeAt k = converterTag conv := by
  have := buildConvertMap_tags (Split text ',') ⟨[], []⟩ (fun _ => rfl) k
  simp only [newConvertMap_maps, mapIndex] at h
  simp only [ConvertMap.typeAt, newConvertMap_maps, mapIndex, this, h]
  rfl

theorem settled_convertValue (rt : Runtime) (c : ConvertMap) (k : String) (conv : Converter)
    (v : Value) (hfloat : conv = .convertFloat → c.typeAt k ≠ ConvertTypeInt) :
    Settled rt c k conv (convertValue rt c k conv v) := by
  cases v with
  | str s =>
    simp only [convertValue]
    cases hconv : conv.Convert rt s with
    | error err => exact ⟨err, hconv⟩
    | ok w =>
      cases conv with
      | convertBool =>
        simp only [Converter.Convert, BoolConverter.Convert] at hconv
        split at hconv
        · cases hconv
          trivial
        · cases hconv
      | convertInt =>
        simp only [Converter.Convert, IntConverter.Convert] at hconv
        split at hconv
        · cases hconv
          trivial
        · cases hconv
      | convertFloat =>
        simp only [Converter.Convert, FloatConverter.Convert] at hconv
        split at hconv
        · cases hconv
          exact hfloat rfl
        · cases hconv
  | float64 f =>
    by_cases ht : c.typeAt k = ConvertTypeInt <;> simp [convertValue, ht, Settled]
  | float32 f =>
    by_cases ht : c.typeAt k = ConvertTypeInt <;> simp [convertValue, ht, Settled]
  | int j =>
    by_cases ht : c.typeAt k = ConvertTypeInt <;> simp [convertValue, ht, Settled]
  | int32 j =>
    by_cases ht : c.typeAt k = ConvertTypeInt <;> simp [convertValue, ht, Settled]
  | null => trivial
  | bool b => trivial
  | int64 j => trivial
  | other id => trivial

theorem convertEntry_of_settled (rt : Runtime) (c : ConvertMap) (data : GoMap Value)
    (e : String × Converter)
    (h : ∀ v, GoMap.get data e.1 = some v → Settled rt c e.1 e.2 v) :
    convertEntry rt c data e = data := by
  unfold convertEntry
  cases hg : GoMap.get data e.1 with
  | none => rfl
  | some v =>
    have hv := h v hg
    cases v with
    | str s =>
      obtain ⟨err, herr⟩ := hv
      simp [herr]
    | float64 f => exact if_neg hv
    | float32 f => exact if_neg hv
    | int j => exact if_neg hv
    | int32 j => exact if_neg hv
    | null => rfl
    | bool b => rfl
    | int64 j => rfl
    | other id => rfl

theorem convertTypes_of_settled (rt : Runtime) (c : ConvertMap)
    (visit : List (String × Converter)) (data : GoMap Value)
    (h : ∀ e ∈ visit, ∀ v, GoMap.get data e.1 = some v → Settled rt c e.1 e.2 v) :
    ConvertTypes rt c visit data = data := by
  induction visit with
  | nil => rfl
  | cons e rest ih =>
    simp only [ConvertTypes, List.foldl_cons] at ih ⊢
    rw [convertEntry_of_settled rt c data e (h e (List.mem_cons_self _ _))]
    exact ih (fun e' he' => h e' (List.mem_cons_of_mem _ he'))

/-- A second pass of `ConvertTypes` changes nothing, when no key pairs the
float converter with the Integer tag. -/
theorem convertTypes_idempotent (rt : Runtime) (c : ConvertMap)
    (visit1 visit2 : List (String × Converter)) (data : GoMap Value)
    (h1 : visit1.Perm (mapRange c.ConverterMap))
    (h2 : visit2.Perm (mapRange c.ConverterMap))
    (hfloat : ∀ k, mapIndex c.ConverterMap k = some .convertFloat →
      c.typeAt k ≠ ConvertTypeInt) :
    ConvertTypes rt c visit2 (ConvertTypes rt c visit1 data) = ConvertTypes rt c visit1 data := by
  apply convertTypes_of_settled
  intro e he v hv
  have hc := ((visit_spec c.ConverterMap visit2 h2).2 e.1 e.2).1 he
  rw [convertTypes_get rt c visit1 data e.1 h1, hc] at hv
  cases hd : GoMap.get data e.1 with
  | none => simp [hd] at hv
  | some w =>
    simp only [hd, Option.map_some', Option.some.injEq] at hv
    rw [← hv]
    apply settled_convertValue
    intro hfl
    exact hfloat e.1 (hfl ▸ hc)

theorem modify_eq (rt : Runtime) (m : RecordModifier) (visit : List (String × Converter))
    (r : TinyFluentRecord) (hv : visit.Perm (mapRange m.convertMap.ConverterMap)) :
    Modify rt m visit r =
      if m.timeParse then
        rederiveTimestamp rt m { r with Data := ConvertTypes rt m.convertMap visit r.Data }
      else { r with Data := ConvertTypes rt m.convertMap visit r.Data } := by
  have h1 : (match m.convertMap.ConverterMap with
      | some _ => ({ r with Data := ConvertTypes rt m.convertMap visit r.Data } : TinyFluentRecord)
      | none => r) = { r with Data := ConvertTypes rt m.convertMap visit r.Data } := by
    cases hc : m.convertMap.ConverterMap with
    | some cm => rfl
    | none =>
      rw [hc] at hv
      have : visit = [] := by simpa [mapRange] using hv
      subst this
      rfl
  unfold Modify
  simp only [h1]
  cases m.timeParse <;> simp

theorem rederiveTimestamp_idempotent (rt : Runtime) (m : RecordModifier)
    (r : TinyFluentRecord) :
    rederiveTimestamp rt m (rederiveTimestamp rt m r) = rederiveTimestamp rt m r := by
  cases hg : GoMap.get r.Data m.timeKey with
  | none => simp [rederiveTimestamp, hg]
  | some v =>
    cases v with
    | str t =>
      cases hc : TimeConverter.Convert rt m.timeConverter t with
      | error e => simp [rederiveTimestamp, hg, hc]
      | ok ts => simp [rederiveTimestamp, hg, hc]
    | _ => simp [rederiveTimestamp, hg]

/-- On a record whose fields `ConvertTypes` leaves alone, `Modify` is the
timestamp step. -/
theorem modify_again (rt : Runtime) (m : RecordModifier) (visit : List (String × Converter))
    (r : TinyFluentRecord) (hv : visit.Perm (mapRange m.convertMap.ConverterMap))
    (hfix : ConvertTypes rt m.convertMap visit r.Data = r.Data) :
    Modify rt m visit r = if m.timeParse then rederiveTimestamp rt m r else r := by
  rw [modify_eq rt m visit r hv, hfix]

/-! ## Idempotence and the timestamp (C9, C10) -/

/-- C9. For a directive built by `NewConvertMap`, any time flag, time key and
layout, and any two orders of the loop, a second `Modify` returns the record
the first one returned: same field set, same timestamp. -/
theorem modify_idempotent (rt : Runtime) (text : String) (flag : Bool) (key layout : String)
    (visit1 visit2 : List (String × Converter)) (r : TinyFluentRecord)
    (h1 : visit1.Perm (mapRange (NewConvertMap text).ConverterMap))
    (h2 : visit2.Perm (mapRange (NewConvertMap text).ConverterMap)) :
    Modify rt ⟨NewConvertMap text, flag, key, layout⟩ visit2
        (Modify rt ⟨NewConvertMap text, flag, key, layout⟩ visit1 r) =
      Modify rt ⟨NewConvertMap text, flag, key, layout⟩ visit1 r := by
  have hfloat : ∀ k, mapIndex (NewConvertMap text).ConverterMap k = some .convertFloat →
      (NewConvertMap text).typeAt k ≠ ConvertTypeInt := by
    intro k hk
    rw [newConvertMap_typeAt text k _ hk]
    decide
  have hd := modify_data rt ⟨NewConvertMap text, flag, key, layout⟩ visit1 r h1
  have hM : ConvertTypes rt (NewConvertMap text) visit2
      (Modify rt ⟨NewConvertMap text, flag, key, layout⟩ visit1 r).Data =
        (Modify rt ⟨NewConvertMap text, flag, key, layout⟩ visit1 r).Data := by
    rw [hd]
    exact convertTypes_idempotent rt (NewConvertMap text) visit1 visit2 r.Data h1 h2 hfloat
  rw [modify_again rt ⟨NewConvertMap text, flag, key, layout⟩ visit2 _ h2 hM]
  cases flag
  · rfl
  · simp only [if_true]
    rw [modify_eq rt ⟨NewConvertMap text, true, key, layout⟩ visit1 r h1]
    simp only [if_true]
    exact rederiveTimestamp_idempotent rt _ _

/-- Witness of C9: two passes in different orders over the example record. -/
theorem modify_idempotent_witness :
    Modify sampleRuntime ⟨NewConvertMap "a:bool,b:integer,c:float", true, "c", "2006"⟩
        [("a", .convertBool), ("b", .convertInt), ("c", .convertFloat)]
        (Modify sampleRuntime ⟨NewConvertMap "a:bool,b:integer,c:float", true, "c", "2006"⟩
          [("c", .convertFloat), ("a", .convertBool), ("b", .convertInt)] textRecord) =
      Modify sampleRuntime ⟨NewConvertMap "a:bool,b:integer,c:float", true, "c", "2006"⟩
        [("c", .convertFloat), ("a", .convertBool), ("b", .convertInt)] textRecord :=
  modify_idempotent sampleRuntime "a:bool,b:integer,c:float" true "c" "2006"
    [("c", .convertFloat), ("a", .convertBool), ("b", .convertInt)]
    [("a", .convertBool), ("b", .convertInt), ("c", .convertFloat)] textRecord
    (by decide) (by decide)

/-- C10 fails as stated: with the directive `time:integer`, the layout `2006`
and the field `time` holding the text `2023`, the text parses under the layout
to the instant 1672531200, yet `Modify` leaves the timestamp at 0, because the
field is an `int64` by the time the timestamp step reads it. -/
theorem modify_timestamp_counterexample :
    yearModifier.timeParse = true ∧
    GoMap.get [("time", Value.str "2023")] yearModifier.timeKey = some (.str "2023") ∧
    TimeConverter.Convert sampleRuntime yearModifier.timeConverter "2023" =
      .ok { unixNano := 1672531200000000000 } ∧
    Time.Unix { unixNano := 1672531200000000000 } = 1672531200 ∧
    Modify sampleRuntime yearModifier [("time", .convertInt)]
        { Timestamp := 0, Data := [("time", .str "2023")] } =
      { Timestamp := 0, Data := [("time", .int64 2023)] } :=
  ⟨rfl, by decide, rfl, by decide, by decide⟩

/-- C10, amended. With re-derivation enabled, if the field at the time key
holds a text `s` that parses under the layout to `t`, and the directive leaves
that field as text (the time key is not a key of the directive, or its
converter fails on `s`), then after `Modify` the timestamp is the whole
number of seconds of `t` since the epoch. -/
theorem modify_timestamp_rederived (rt : Runtime) (m : RecordModifier)
    (visit : List (String × Converter)) (r : TinyFluentRecord) (s : String) (t : Time)
    (hv : visit.Perm (mapRange m.convertMap.ConverterMap))
    (hflag : m.timeParse = true)
    (hs : GoMap.get r.Data m.timeKey = some (.str s))
    (hparse : TimeConverter.Convert rt m.timeConverter s = .ok t)
    (hkeep : ∀ conv, mapIndex m.convertMap.ConverterMap m.timeKey = some conv →
      ∃ err, conv.Convert rt s = .error err) :
    (Modify rt m visit r).Timestamp = t.unixNano / 1000000000 := by
  have hget : GoMap.get (ConvertTypes rt m.convertMap visit r.Data) m.timeKey =
      some (.str s) := by
    rw [convertTypes_get rt m.convertMap visit r.Data m.timeKey hv]
    cases hc : mapIndex m.convertMap.ConverterMap m.timeKey with
    | none => exact hs
    | some conv =>
      obtain ⟨err, herr⟩ := hkeep conv hc
      simp [hs, convertValue, herr]
  rw [modify_eq rt m visit r hv, if_pos hflag]
  simp [rederiveTimestamp, hget, hparse, Time.Unix]

/-- Witness of C10, amended: the field `time`, not named by the directive, sets the timestamp. -/
theorem modify_timestamp_rederived_witness :
    (Modify sampleRuntime stampModifier [("a", .convertBool)]
      { Timestamp := 7, Data := [("a", .str "t"), ("time", .str "2023-01-02T03:04:05Z")] }
      ).Timestamp = 1672628645 :=
  modify_timestamp_rederived sampleRuntime stampModifier [("a", .convertBool)]
    { Timestamp := 7, Data := [("a", .str "t"), ("time", .str "2023-01-02T03:04:05Z")] }
    "2023-01-02T03:04:05Z" { unixNano := 1672628645000000000 }
    (by decide) rfl (by decide) rfl
    (fun conv h => by
      have h0 : mapIndex stampModifier.convertMap.ConverterMap stampModifier.timeKey = none := by
        decide
      rw [h0] at h
      cases h)

/-! ## Lemmas on converted values -/

/-- A successful conversion yields a value of the type of the converter. -/
theorem convert_ok_cases (rt : Runtime) (conv : Converter) (s : String) (w : Value)
    (h : conv.Convert rt s = .ok w) :
    (conv = .convertBool ∧ ∃ b, w = .bool b) ∨ (conv = .convertInt ∧ ∃ i, w = .int64 i) ∨
      (conv = .convertFloat ∧ ∃ f, w = .float64 f) := by
  cases conv with
  | convertBool =>
    simp only [Converter.Convert, BoolConverter.Convert] at h
    split at h
    · cases h
      exact Or.inl ⟨rfl, _, rfl⟩
    · cases h
  | convertInt =>
    simp only [Converter.Convert, IntConverter.Convert] at h
    split at h
    · cases h
      exact Or.inr (Or.inl ⟨rfl, _, rfl⟩)
    · cases h
  | convertFloat =>
    simp only [Converter.Convert, FloatConverter.Convert] at h
    split at h
    · cases h
      exact Or.inr (Or.inr ⟨rfl, _, rfl⟩)
    · cases h

theorem convert_ok_ne_str (rt : Runtime) (conv : Converter) (s t : String) (w : Value)
    (h : conv.Convert rt s = .ok w) : w ≠ .str t := by
  rcases convert_ok_cases rt conv s w h with ⟨_, b, rfl⟩ | ⟨_, i, rfl⟩ | ⟨_, f, rfl⟩ <;> simp

/-- A field that is text after an iteration held the same text before. -/
theorem convertValue_eq_str (rt : Runtime) (c : ConvertMap) (k : String) (conv : Converter)
    (v : Value) (t : String) (h : convertValue rt c k conv v = .str t) : v = .str t := by
  cases v with
  | str s =>
    simp only [convertValue] at h
    cases hc : conv.Convert rt s with
    | error err =>
      rw [hc] at h
      exact h
    | ok w =>
      rw [hc] at h
      exact absurd h (convert_ok_ne_str rt conv s t w hc)
  | float64 f =>
    by_cases ht : c.typeAt k = ConvertTypeInt <;> simp [convertValue, ht] at h
  | float32 f =>
    by_cases ht : c.typeAt k = ConvertTypeInt <;> simp [convertValue, ht] at h
  | int j =>
    by_cases ht : c.typeAt k = ConvertTypeInt <;> simp [convertValue, ht] at h
  | int32 j =>
    by_cases ht : c.typeAt k = ConvertTypeInt <;> simp [convertValue, ht] at h
  | null => simp [convertValue] at h
  | bool b => simp [convertValue] at h
  | int64 j => simp [convertValue] at h
  | other id => simp [convertValue] at h

theorem convertTypes_get_str (rt : Runtime) (c : ConvertMap)
    (visit : List (String × Converter)) (data : GoMap Value) (k t : String)
    (hv : visit.Perm (mapRange c.ConverterMap))
    (h : GoMap.get (ConvertTypes rt c visit data) k = some (.str t)) :
    GoMap.get data k = some (.str t) := by
  rw [convertTypes_get rt c visit data k hv] at h
  cases hc : mapIndex c.ConverterMap k with
  | none =>
    rw [hc] at h
    exact h
  | some conv =>
    rw [hc] at h
    cases hd : GoMap.get data k with
    | none => simp [hd] at h
    | some v =>
      simp only [hd, Option.map_some', Option.some.injEq] at h
      rw [convertValue_eq_str rt c k conv v t h]

/-- The timestamp after `Modify` is the old one, unless re-derivation is
enabled and the time field, text before and after conversion, parses. -/
theorem modify_timestamp_cases (rt : Runtime) (m : RecordModifier)
    (visit : List (String × Converter)) (r : TinyFluentRecord)
    (hv : visit.Perm (mapRange m.convertMap.ConverterMap)) :
    (Modify rt m visit r).Timestamp = r.Timestamp ∨
      (m.timeParse = true ∧ ∃ t ts, GoMap.get r.Data m.timeKey = some (.str t) ∧
        GoMap.get (ConvertTypes rt m.convertMap visit r.Data) m.timeKey = some (.str t) ∧
        TimeConverter.Convert rt m.timeConverter t = .ok ts ∧
        (Modify rt m visit r).Timestamp = ts.Unix) := by
  rw [modify_eq rt m visit r hv]
  cases hflag : m.timeParse with
  | false => exact Or.inl rfl
  | true =>
    simp only [if_true]
    cases hg : GoMap.get (ConvertTypes rt m.convertMap visit r.Data) m.timeKey with
    | none => simp [rederiveTimestamp, hg]
    | some v =>
      cases v with
      | str t =>
        cases hc : TimeConverter.Convert rt m.timeConverter t with
        | error e => simp [rederiveTimestamp, hg, hc]
        | ok ts =>
          right
          refine ⟨trivial, t, ts, convertTypes_get_str rt _ visit r.Data _ t hv hg, rfl, hc, ?_⟩
          simp [rederiveTimestamp, hg, hc]
      | _ => simp [rederiveTimestamp, hg]

/-! ## The timestamp step (C11, C18) -/

/-- C11. `Modify` leaves the timestamp as it was when re-derivation is
disabled, or the record has no field at the time key, or that field is not
text, or the text fails to parse under the layout; with re-derivation
disabled the record returned is the input with its fields converted. -/
theorem modify_timestamp_unchanged (rt : Runtime) (m : RecordModifier)
    (visit : List (String × Converter)) (r : TinyFluentRecord)
    (hv : visit.Perm (mapRange m.convertMap.ConverterMap)) :
    (m.timeParse = false ∨ GoMap.get r.Data m.timeKey = none ∨
        (∃ v, GoMap.get r.Data m.timeKey = some v ∧ ∀ s, v ≠ .str s) ∨
        (∃ s err, GoMap.get r.Data m.timeKey = some (.str s) ∧
          TimeConverter.Convert rt m.timeConverter s = .error err) →
      (Modify rt m visit r).Timestamp = r.Timestamp) ∧
    (m.timeParse = false →
      Modify rt m visit r =
        { Timestamp := r.Timestamp, Data := ConvertTypes rt m.convertMap visit r.Data }) := by
  constructor
  · intro h
    rcases modify_timestamp_cases rt m visit r hv with hsame | ⟨hflag, t, ts, h1, _, h3, _⟩
    · exact hsame
    · rcases h with h | h | ⟨v, hv1, hv2⟩ | ⟨s, err, hs1, hs2⟩
      · rw [hflag] at h
        cases h
      · rw [h] at h1
        cases h1
      · rw [hv1] at h1
        cases h1
        exact absurd rfl (hv2 t)
      · rw [hs1] at h1
        cases h1
        rw [hs2] at h3
        cases h3
  · intro hflag
    rw [modify_eq rt m visit r hv, hflag]
    rfl

/-- Witness of C11: a disabled modifier converts the fields and keeps the
timestamp; an enabled one keeps it when the time field is missing. -/
theorem modify_timestamp_unchanged_witness :
    (Modify sampleRuntime typedModifier
        [("a", .convertBool), ("b", .convertInt), ("c", .convertFloat)] textRecord).Timestamp =
      textRecord.Timestamp ∧
    Modify sampleRuntime typedModifier
        [("a", .convertBool), ("b", .convertInt), ("c", .convertFloat)] textRecord =
      { Timestamp := 0,
        Data := [("a", .bool true), ("b", .int64 42),
          ("c", .float64 (.finite 7070651414971679 (-51))), ("d", .bool false)] } ∧
    (Modify sampleRuntime stampModifier [("a", .convertBool)]
        { Timestamp := 7, Data := [("a", .str "t")] }).Timestamp = 7 :=
  ⟨(modify_timestamp_unchanged sampleRuntime typedModifier
      [("a", .convertBool), ("b", .convertInt), ("c", .convertFloat)] textRecord
      (by decide)).1 (Or.inl rfl),
    ((modify_timestamp_unchanged sampleRuntime typedModifier
      [("a", .convertBool), ("b", .convertInt), ("c", .convertFloat)] textRecord
      (by decide)).2 rfl).trans (by decide),
    (modify_timestamp_unchanged sampleRuntime stampModifier [("a", .convertBool)]
      { Timestamp := 7, Data := [("a", .str "t")] } (by decide)).1 (Or.inr (Or.inl (by decide)))⟩

/-- C18. If the time key is a key of the directive and the record holds there
a text that the bound converter converts to `w`, then after `Modify` the field
holds `w` and the timestamp is the old one, whether or not re-derivation is
enabled and whether or not the text parses under the layout. -/
theorem modify_timestamp_after_conversion (rt : Runtime) (m : RecordModifier)
    (visit : List (String × Converter)) (r : TinyFluentRecord) (s : String)
    (conv : Converter) (w : Value)
    (hv : visit.Perm (mapRange m.convertMap.ConverterMap))
    (hc : mapIndex m.convertMap.ConverterMap m.timeKey = some conv)
    (hs : GoMap.get r.Data m.timeKey = some (.str s))
    (hok : conv.Convert rt s = .ok w) :
    (Modify rt m visit r).Timestamp = r.Timestamp ∧
      GoMap.get (Modify rt m visit r).Data m.timeKey = some w := by
  have hget : GoMap.get (ConvertTypes rt m.convertMap visit r.Data) m.timeKey = some w := by
    rw [convertTypes_get rt m.convertMap visit r.Data m.timeKey hv, hc]
    simp [hs, convertValue, hok]
  refine ⟨?_, by rw [modify_data rt m visit r hv]; exact hget⟩
  rcases modify_timestamp_cases rt m visit r hv with hsame | ⟨_, t, ts, _, h2, _, _⟩
  · exact hsame
  · rw [hget] at h2
    cases h2
    exact absurd rfl (convert_ok_ne_str rt conv s t _ hok)

/-- Witness of C18: directive `time:integer`, layout `2006`, field `time`
holding `2023`, which parses under the layout; the timestamp stays 5. -/
theorem modify_timestamp_after_conversion_witness :
    TimeConverter.Convert sampleRuntime yearModifier.timeConverter "2023" =
      .ok { unixNano := 1672531200000000000 } ∧
    (Modify sampleRuntime yearModifier [("time", .convertInt)]
        { Timestamp := 5, Data := [("time", .str "2023")] }).Timestamp = 5 ∧
    GoMap.get (Modify sampleRuntime yearModifier [("time", .convertInt)]
        { Timestamp := 5, Data := [("time", .str "2023")] }).Data "time" =
      some (.int64 2023) :=
  ⟨rfl, modify_timestamp_after_conversion sampleRuntime yearModifier [("time", .convertInt)]
    { Timestamp := 5, Data := [("time", .str "2023")] } "2023" .convertInt (.int64 2023)
    (by decide) (by decide) (by decide) rfl⟩

/-! ## Lemmas on the shape of the field set -/

/-- Overwriting a key that is present leaves the list of keys as it was. -/
theorem GoMap.set_keys {V : Type} (m : GoMap V) (k : String) (v v0 : V)
    (h : GoMap.get m k = some v0) :
    (GoMap.set m k v).map Prod.fst = m.map Prod.fst := by
  induction m with
  | nil => simp [GoMap.get] at h
  | cons e m ih =>
    obtain ⟨k1, v1⟩ := e
    by_cases hk : k1 = k
    · simp [GoMap.set, hk]
    · simp only [GoMap.get, if_neg hk] at h
      simp [GoMap.set, hk, ih h]

/-- Overwriting a key with the value it holds changes nothing. -/
theorem GoMap.set_get_self {V : Type} (m : GoMap V) (k : String) (v : V)
    (h : GoMap.get m k = some v) : GoMap.set m k v = m := by
  induction m with
  | nil => simp [GoMap.get] at h
  | cons e m ih =>
    obtain ⟨k1, v1⟩ := e
    by_cases hk : k1 = k
    · simp only [GoMap.get, if_pos hk, Option.some.injEq] at h
      simp [GoMap.set, hk, h]
    · simp only [GoMap.get, if_neg hk] at h
      simp [GoMap.set, hk, ih h]

/-- An iteration of the loop overwrites the field it finds, or leaves the
field set alone. -/
theorem convertEntry_eq_set (rt : Runtime) (c : ConvertMap) (data : GoMap Value)
    (k : String) (conv : Converter) :
    convertEntry rt c data (k, conv) =
      match GoMap.get data k with
      | none => data
      | some v => GoMap.set data k (convertValue rt c k conv v) := by
  unfold convertEntry
  cases hg : GoMap.get data k with
  | none => rfl
  | some v =>
    cases v with
    | str s =>
      simp only [convertValue]
      cases conv.Convert rt s with
      | ok w => rfl
      | error err => exact (GoMap.set_get_self data k _ hg).symm
    | float64 f =>
      by_cases ht : c.typeAt k = ConvertTypeInt
      · simp [convertValue, ht]
      · simp [convertValue, ht, GoMap.set_get_self data k _ hg]
    | float32 f =>
      by_cases ht : c.typeAt k = ConvertTypeInt
      · simp [convertValue, ht]
      · simp [convertValue, ht, GoMap.set_get_self data k _ hg]
    | int i =>
      by_cases ht : c.typeAt k = ConvertTypeInt
      · simp [convertValue, ht]
      · simp [convertValue, ht, GoMap.set_get_self data k _ hg]
    | int32 i =>
      by_cases ht : c.typeAt k = ConvertTypeInt
      · simp [convertValue, ht]
      · simp [convertValue, ht, GoMap.set_get_self data k _ hg]
    | null => exact (GoMap.set_get_self data k _ hg).symm
    | bool b => exact (GoMap.set_get_self data k _ hg).symm
    | int64 i => exact (GoMap.set_get_self data k _ hg).symm
    | other id => exact (GoMap.set_get_self data k _ hg).symm

theorem convertEntry_keys (rt : Runtime) (c : ConvertMap) (data : GoMap Value)
    (e : String × Converter) :
    (convertEntry rt c data e).map Prod.fst = data.map Prod.fst := by
  obtain ⟨k, conv⟩ := e
  rw [convertEntry_eq_set]
  cases hg : GoMap.get data k with
  | none => rfl
  | some v => exact GoMap.set_keys data k _ v hg

theorem convertTypes_keys (rt : Runtime) (c : ConvertMap)
    (visit : List (String × Converter)) (data : GoMap Value) :
    (ConvertTypes rt c visit data).map Prod.fst = data.map Prod.fst := by
  induction visit generalizing data with
  | nil => rfl
  | cons e rest ih =>
    simp only [ConvertTypes, List.foldl_cons] at ih ⊢
    rw [ih, convertEntry_keys]

/-! ## Frame and typing of field conversion (C17, C19, C16) -/

/-- C17. `Modify` neither adds nor removes fields: the list of field names is
the same and a name is present after exactly when it was before; a field
whose name is not a key of the directive keeps its value. -/
theorem modify_frame (rt : Runtime) (m : RecordModifier)
    (visit : List (String × Converter)) (r : TinyFluentRecord) (k : String)
    (hv : visit.Perm (mapRange m.convertMap.ConverterMap)) :
    (Modify rt m visit r).Data.map Prod.fst = r.Data.map Prod.fst ∧
    ((GoMap.get (Modify rt m visit r).Data k).isSome ↔ (GoMap.get r.Data k).isSome) ∧
    (mapIndex m.convertMap.ConverterMap k = none →
      GoMap.get (Modify rt m visit r).Data k = GoMap.get r.Data k) := by
  rw [modify_data rt m visit r hv]
  refine ⟨convertTypes_keys rt m.convertMap visit r.Data, ?_, ?_⟩
  · rw [convertTypes_get rt m.convertMap visit r.Data k hv]
    cases mapIndex m.convertMap.ConverterMap k with
    | none => rfl
    | some conv => simp
  · intro hc
    rw [convertTypes_get rt m.convertMap visit r.Data k hv, hc]

/-- Witness of C17: on the example record the names stay `a`, `b`, `c`, `d`,
and the field `d`, which the directive does not name, keeps its value. -/
theorem modify_frame_witness :
    (Modify sampleRuntime typedModifier
        [("b", .convertInt), ("c", .convertFloat), ("a", .convertBool)] textRecord).Data.map
      Prod.fst = ["a", "b", "c", "d"] ∧
    GoMap.get (Modify sampleRuntime typedModifier
        [("b", .convertInt), ("c", .convertFloat), ("a", .convertBool)] textRecord).Data "d" =
      some (.bool false) :=
  ⟨(modify_frame sampleRuntime typedModifier
      [("b", .convertInt), ("c", .convertFloat), ("a", .convertBool)] textRecord "d"
      (by decide)).1,
    (modify_frame sampleRuntime typedModifier
      [("b", .convertInt), ("c", .convertFloat), ("a", .convertBool)] textRecord "d"
      (by decide)).2.2 (by decide)⟩

/-- C19. For a directive built by `NewConvertMap`, a field whose value
`ConvertTypes` changes is a key of the directive and ends up holding a value
of the declared type: a bool under `ConvertTypeBool`, an int64 under
`ConvertTypeInt`, a float64 under `ConvertTypeFloat`. -/
theorem convertTypes_changed_has_declared_type (rt : Runtime) (text : String)
    (visit : List (String × Converter)) (data : GoMap Value) (k : String)
    (hv : visit.Perm (mapRange (NewConvertMap text).ConverterMap))
    (hchanged : GoMap.get (ConvertTypes rt (NewConvertMap text) visit data) k ≠
      GoMap.get data k) :
    (mapIndex (NewConvertMap text).TypeMap k = some ConvertTypeBool ∧
        ∃ b, GoMap.get (ConvertTypes rt (NewConvertMap text) visit data) k = some (.bool b)) ∨
    (mapIndex (NewConvertMap text).TypeMap k = some ConvertTypeInt ∧
        ∃ i, GoMap.get (ConvertTypes rt (NewConvertMap text) visit data) k = some (.int64 i)) ∨
    (mapIndex (NewConvertMap text).TypeMap k = some ConvertTypeFloat ∧
        ∃ f, GoMap.get (ConvertTypes rt (NewConvertMap text) visit data) k =
          some (.float64 f)) := by
  rw [convertTypes_get rt (NewConvertMap text) visit data k hv] at hchanged ⊢
  cases hc : mapIndex (NewConvertMap text).ConverterMap k with
  | none =>
    rw [hc] at hchanged
    exact absurd rfl hchanged
  | some conv =>
    have htag := newConvertMap_typeAt text k conv hc
    have hmap : mapIndex (NewConvertMap text).TypeMap k = some (converterTag conv) := by
      have := buildConvertMap_tags (Split text ',') ⟨[], []⟩ (fun _ => rfl) k
      simp only [newConvertMap_maps, mapIndex] at hc ⊢
      rw [this, hc]
      rfl
    rw [hc] at hchanged
    simp only
    cases hd : GoMap.get data k with
    | none =>
      rw [hd] at hchanged
      exact absurd rfl hchanged
    | some v =>
      rw [hd] at hchanged
      simp only [Option.map_some', ne_eq, Option.some.injEq] at hchanged ⊢
      have hint : (NewConvertMap text).typeAt k = ConvertTypeInt →
          mapIndex (NewConvertMap text).TypeMap k = some ConvertTypeInt := by
        intro ht
        rw [hmap, ← htag, ht]
      cases v with
      | str s =>
        simp only [convertValue] at hchanged ⊢
        cases hconv : conv.Convert rt s with
        | error err =>
          rw [hconv] at hchanged
          exact absurd rfl hchanged
        | ok w =>
          simp only
          rcases convert_ok_cases rt conv s w hconv with ⟨rfl, b, rfl⟩ | ⟨rfl, i, rfl⟩ |
            ⟨rfl, f, rfl⟩
          · exact Or.inl ⟨hmap, b, rfl⟩
          · exact Or.inr (Or.inl ⟨hmap, i, rfl⟩)
          · exact Or.inr (Or.inr ⟨hmap, f, rfl⟩)
      | float64 f =>
        by_cases ht : (NewConvertMap text).typeAt k = ConvertTypeInt
        · exact Or.inr (Or.inl ⟨hint ht, floatToInt64 rt f, by simp [convertValue, ht]⟩)
        · simp [convertValue, ht] at hchanged
      | float32 f =>
        by_cases ht : (NewConvertMap text).typeAt k = ConvertTypeInt
        · exact Or.inr (Or.inl ⟨hint ht, floatToInt64 rt f, by simp [convertValue, ht]⟩)
        · simp [convertValue, ht] at hchanged
      | int i =>
        by_cases ht : (NewConvertMap text).typeAt k = ConvertTypeInt
        · exact Or.inr (Or.inl ⟨hint ht, wrapInt64 i, by simp [convertValue, ht]⟩)
        · simp [convertValue, ht] at hchanged
      | int32 i =>
        by_cases ht : (NewConvertMap text).typeAt k = ConvertTypeInt
        · exact Or.inr (Or.inl ⟨hint ht, wrapInt64 i, by simp [convertValue, ht]⟩)
        · simp [convertValue, ht] at hchanged
      | null => simp [convertValue] at hchanged
      | bool b => simp [convertValue] at hchanged
      | int64 i => simp [convertValue] at hchanged
      | other id => simp [convertValue] at hchanged

/-- Witness of C19: under `a:bool,b:integer,c:float` the text `42` at `b`
changes, and `b` then holds an int64. -/
theorem convertTypes_changed_has_declared_type_witness :
    GoMap.get (ConvertTypes sampleRuntime (NewConvertMap "a:bool,b:integer,c:float")
        [("c", .convertFloat), ("b", .convertInt), ("a", .convertBool)] textRecord.Data) "b" ≠
      GoMap.get textRecord.Data "b" ∧
    ((mapIndex (NewConvertMap "a:bool,b:integer,c:float").TypeMap "b" = some ConvertTypeBool ∧
        ∃ b, GoMap.get (ConvertTypes sampleRuntime (NewConvertMap "a:bool,b:integer,c:float")
          [("c", .convertFloat), ("b", .convertInt), ("a", .convertBool)] textRecord.Data) "b" =
            some (.bool b)) ∨
    (mapIndex (NewConvertMap "a:bool,b:integer,c:float").TypeMap "b" = some ConvertTypeInt ∧
        ∃ i, GoMap.get (ConvertTypes sampleRuntime (NewConvertMap "a:bool,b:integer,c:float")
          [("c", .convertFloat), ("b", .convertInt), ("a", .convertBool)] textRecord.Data) "b" =
            some (.int64 i)) ∨
    (mapIndex (NewConvertMap "a:bool,b:integer,c:float").TypeMap "b" = some ConvertTypeFloat ∧
        ∃ f, GoMap.get (ConvertTypes sampleRuntime (NewConvertMap "a:bool,b:integer,c:float")
          [("c", .convertFloat), ("b", .convertInt), ("a", .convertBool)] textRecord.Data) "b" =
            some (.float64 f))) :=
  ⟨by decide,
    convertTypes_changed_has_declared_type sampleRuntime "a:bool,b:integer,c:float"
      [("c", .convertFloat), ("b", .convertInt), ("a", .convertBool)] textRecord.Data "b"
      (by decide) (by decide)⟩

/-- C16. For a key `k` of `NewConvertMap(text)` with tag `t`: the tag is one
of `ConvertTypeInt`, `ConvertTypeFloat`, `ConvertTypeBool`, never
`ConvertTypeString`, and the converter stored for `k` is the bool converter
exactly when `t` is `ConvertTypeBool`, the integer converter exactly when `t`
is `ConvertTypeInt`, the float converter exactly when `t` is
`ConvertTypeFloat`. -/
theorem newConvertMap_tag_matches_converter (text k : String) (t : ConvertType)
    (ht : mapIndex (NewConvertMap text).TypeMap k = some t) :
    (t = ConvertTypeInt ∨ t = ConvertTypeFloat ∨ t = ConvertTypeBool) ∧
    t ≠ ConvertTypeString ∧
    ∃ conv, mapIndex (NewConvertMap text).ConverterMap k = some conv ∧
      (conv = .convertBool ↔ t = ConvertTypeBool) ∧
      (conv = .convertInt ↔ t = ConvertTypeInt) ∧
      (conv = .convertFloat ↔ t = ConvertTypeFloat) := by
  have htags := buildConvertMap_tags (Split text ',') ⟨[], []⟩ (fun _ => rfl) k
  simp only [newConvertMap_maps, mapIndex] at ht ⊢
  rw [htags] at ht
  cases hc : GoMap.get (buildConvertMap (Split text ',') ⟨[], []⟩).ConverterMap k with
  | none => simp [hc] at ht
  | some conv =>
    simp only [hc, Option.map_some', Option.some.injEq] at ht
    subst ht
    cases conv
    · exact ⟨by decide, by decide, _, rfl, by decide, by decide, by decide⟩
    · exact ⟨by decide, by decide, _, rfl, by decide, by decide, by decide⟩
    · exact ⟨by decide, by decide, _, rfl, by decide, by decide, by decide⟩

/-- Witness of C16: in `a:bool,b:integer,c:float` the key `c` has the tag
`ConvertTypeFloat` and the float converter. -/
theorem newConvertMap_tag_matches_converter_witness :
    mapIndex (NewConvertMap "a:bool,b:integer,c:float").TypeMap "c" = some ConvertTypeFloat ∧
    (ConvertTypeFloat = ConvertTypeInt ∨ ConvertTypeFloat = ConvertTypeFloat ∨
      ConvertTypeFloat = ConvertTypeBool) ∧
    ConvertTypeFloat ≠ ConvertTypeString ∧
    ∃ conv, mapIndex (NewConvertMap "a:bool,b:integer,c:float").ConverterMap "c" = some conv ∧
      (conv = .convertBool ↔ ConvertTypeFloat = ConvertTypeBool) ∧
      (conv = .convertInt ↔ ConvertTypeFloat = ConvertTypeInt) ∧
      (conv = .convertFloat ↔ ConvertTypeFloat = ConvertTypeFloat) :=
  ⟨by decide,
    newConvertMap_tag_matches_converter "a:bool,b:integer,c:float" "c" ConvertTypeFloat
      (by decide)⟩

/-! ## Order of the loop (C15) -/

/-- Overwriting two different keys that are present commutes. -/
theorem GoMap.set_comm {V : Type} (m : GoMap V) (k1 k2 : String) (v1 v2 w1 w2 : V)
    (hne : k1 ≠ k2) (h1 : GoMap.get m k1 = some w1) (h2 : GoMap.get m k2 = some w2) :
    GoMap.set (GoMap.set m k1 v1) k2 v2 = GoMap.set (GoMap.set m k2 v2) k1 v1 := by
  induction m with
  | nil => simp [GoMap.get] at h1
  | cons e m ih =>
    obtain ⟨k0, v0⟩ := e
    by_cases hk1 : k0 = k1
    · have hk2 : k0 ≠ k2 := fun h => hne (hk1.symm.trans h)
      simp [GoMap.set, hk1, hk2, hne]
    · by_cases hk2 : k0 = k2
      · simp [GoMap.set, hk1, hk2, Ne.symm hne]
      · simp only [GoMap.get, if_neg hk1] at h1
        simp only [GoMap.get, if_neg hk2] at h2
        simp [GoMap.set, hk1, hk2, ih h1 h2]

/-- Iterations for different keys commute. -/
theorem convertEntry_comm (rt : Runtime) (c : ConvertMap) (data : GoMap Value)
    (x y : String × Converter) (hne : x.1 ≠ y.1) :
    convertEntry rt c (convertEntry rt c data x) y =
      convertEntry rt c (convertEntry rt c data y) x := by
  obtain ⟨k1, c1⟩ := x
  obtain ⟨k2, c2⟩ := y
  simp only at hne
  have hx : ∀ d, GoMap.get (convertEntry rt c d (k2, c2)) k1 = GoMap.get d k1 := by
    intro d
    rw [convertEntry_get, if_neg (Ne.symm hne)]
  have hy : ∀ d, GoMap.get (convertEntry rt c d (k1, c1)) k2 = GoMap.get d k2 := by
    intro d
    rw [convertEntry_get, if_neg hne]
  rw [convertEntry_eq_set rt c (convertEntry rt c data (k1, c1)) k2 c2,
    convertEntry_eq_set rt c (convertEntry rt c data (k2, c2)) k1 c1, hx, hy]
  cases h1 : GoMap.get data k1 with
  | none =>
    cases h2 : GoMap.get data k2 with
    | none =>
      simp only
      rw [convertEntry_eq_set, convertEntry_eq_set, h1, h2]
    | some v2 =>
      simp only
      rw [convertEntry_eq_set rt c data k1 c1, h1]
      simp only
      rw [convertEntry_eq_set, h2]
  | some v1 =>
    cases h2 : GoMap.get data k2 with
    | none =>
      simp only
      rw [convertEntry_eq_set rt c data k2 c2, h2]
      simp only
      rw [convertEntry_eq_set, h1]
    | some v2 =>
      simp only
      rw [convertEntry_eq_set rt c data k1 c1, convertEntry_eq_set rt c data k2 c2, h1, h2]
      exact GoMap.set_comm data k1 k2 _ _ v1 v2 hne h1 h2

/-- C15. For every directive and field set, any two orders of the loop over
the converter map leave the same field set. -/
theorem convertTypes_order_independent (rt : Runtime) (c : ConvertMap)
    (visit1 visit2 : List (String × Converter)) (data : GoMap Value)
    (h1 : visit1.Perm (mapRange c.ConverterMap))
    (h2 : visit2.Perm (mapRange c.ConverterMap)) :
    ConvertTypes rt c visit1 data = ConvertTypes rt c visit2 data := by
  obtain ⟨_, hmem⟩ := visit_spec c.ConverterMap visit1 h1
  apply List.Perm.foldl_eq' (h1.trans h2.symm)
  intro x hx y hy z
  by_cases hk : x.1 = y.1
  · have hx2 := (hmem x.1 x.2).1 hx
    have hy2 := (hmem y.1 y.2).1 hy
    rw [hk, hy2] at hx2
    have hxy : x = y := Prod.ext hk (Option.some.inj hx2).symm
    rw [hxy]
  · exact convertEntry_comm rt c z x y hk

/-- Witness of C15: two orders of `a:bool,b:integer,c:float` on the example
record. -/
theorem convertTypes_order_independent_witness :
    ConvertTypes sampleRuntime (NewConvertMap "a:bool,b:integer,c:float")
        [("c", .convertFloat), ("b", .convertInt), ("a", .convertBool)] textRecord.Data =
      ConvertTypes sampleRuntime (NewConvertMap "a:bool,b:integer,c:float")
        [("a", .convertBool), ("b", .convertInt), ("c", .convertFloat)] textRecord.Data :=
  convertTypes_order_independent sampleRuntime (NewConvertMap "a:bool,b:integer,c:float")
    [("c", .convertFloat), ("b", .convertInt), ("a", .convertBool)]
    [("a", .convertBool), ("b", .convertInt), ("c", .convertFloat)] textRecord.Data
    (by decide) (by decide)

/-! ## The format selector and the bool converter (C12, C14) -/

/-- C12. `FileFormat.UnmarshalText` returns no error exactly when the
lower-cased text is one of the five spellings; it then sets the tag to
`FormatNone` for the empty text and `none`, `FormatLTSV` for `ltsv`,
`FormatJSON` for `json`, `FormatRegexp` for `regexp`; on every other text it
returns an error and leaves the tag alone.  Nothing is trimmed: ` json` is an
error, as is `xml`, while `JSON` selects `FormatJSON`. -/
theorem unmarshalText_format (unicodeLower : Char → Char) (f : FileFormat) (text : String) :
    ((FileFormat.UnmarshalText unicodeLower f text).2 = none ↔
      (ToLower unicodeLower text = "" ∨ ToLower unicodeLower text = "none" ∨
        ToLower unicodeLower text = "ltsv" ∨ ToLower unicodeLower text = "json" ∨
        ToLower unicodeLower text = "regexp")) ∧
    (ToLower unicodeLower text = "" ∨ ToLower unicodeLower text = "none" →
      FileFormat.UnmarshalText unicodeLower f text = (FormatNone, none)) ∧
    (ToLower unicodeLower text = "ltsv" →
      FileFormat.UnmarshalText unicodeLower f text = (FormatLTSV, none)) ∧
    (ToLower unicodeLower text = "json" →
      FileFormat.UnmarshalText unicodeLower f text = (FormatJSON, none)) ∧
    (ToLower unicodeLower text = "regexp" →
      FileFormat.UnmarshalText unicodeLower f text = (FormatRegexp, none)) ∧
    (¬(ToLower unicodeLower text = "" ∨ ToLower unicodeLower text = "none" ∨
        ToLower unicodeLower text = "ltsv" ∨ ToLower unicodeLower text = "json" ∨
        ToLower unicodeLower text = "regexp") →
      FileFormat.UnmarshalText unicodeLower f text = (f, some ("Invalid Format " ++ text))) ∧
    FileFormat.UnmarshalText unicodeLower f "xml" = (f, some "Invalid Format xml") ∧
    FileFormat.UnmarshalText unicodeLower f " json" = (f, some "Invalid Format  json") ∧
    FileFormat.UnmarshalText unicodeLower f "JSON" = (FormatJSON, none) ∧
    FileFormat.UnmarshalText unicodeLower f "" = (FormatNone, none) := by
  refine ⟨?_, ?_, ?_, ?_, ?_, ?_, rfl, rfl, rfl, rfl⟩
  · unfold FileFormat.UnmarshalText
    by_cases h1 : ToLower unicodeLower text = "ltsv"
    · simp [h1]
    · by_cases h2 : ToLower unicodeLower text = "json"
      · simp [h2]
      · by_cases h3 : ToLower unicodeLower text = "regexp"
        · simp [h3]
        · by_cases h4 : ToLower unicodeLower text = "" ∨ ToLower unicodeLower text = "none"
          · rcases h4 with h4 | h4 <;> simp [h4]
          · have h5 := not_or.1 h4
            simp [h1, h2, h3, h5.1, h5.2]
  · intro h
    unfold FileFormat.UnmarshalText
    rcases h with h | h <;> simp [h]
  · intro h
    unfold FileFormat.UnmarshalText
    simp [h]
  · intro h
    unfold FileFormat.UnmarshalText
    simp [h]
  · intro h
    unfold FileFormat.UnmarshalText
    simp [h]
  · intro h
    unfold FileFormat.UnmarshalText
    simp only [not_or] at h
    simp [h.1, h.2.1, h.2.2.1, h.2.2.2.1, h.2.2.2.2]

/-- C14. `BoolConverter.Convert` yields true exactly on `1`, `t`, `T`, `TRUE`,
`true`, `True`, yields false exactly on `0`, `f`, `F`, `FALSE`, `false`,
`False`, yields nothing else, and fails on every other text. -/
theorem boolConverter_convert_spellings (s : String) :
    (BoolConverter.Convert s = .ok (.bool true) ↔
      (s = "1" ∨ s = "t" ∨ s = "T" ∨ s = "TRUE" ∨ s = "true" ∨ s = "True")) ∧
    (BoolConverter.Convert s = .ok (.bool false) ↔
      (s = "0" ∨ s = "f" ∨ s = "F" ∨ s = "FALSE" ∨ s = "false" ∨ s = "False")) ∧
    (∀ v, BoolConverter.Convert s = .ok v → v = .bool true ∨ v = .bool false) ∧
    (¬(s = "1" ∨ s = "t" ∨ s = "T" ∨ s = "TRUE" ∨ s = "true" ∨ s = "True") →
      ¬(s = "0" ∨ s = "f" ∨ s = "F" ∨ s = "FALSE" ∨ s = "false" ∨ s = "False") →
      BoolConverter.Convert s = .error .ErrSyntax) := by
  by_cases ht : s = "1" ∨ s = "t" ∨ s = "T" ∨ s = "true" ∨ s = "TRUE" ∨ s = "True"
  · have hconv : BoolConverter.Convert s = .ok (.bool true) := by
      simp [BoolConverter.Convert, ParseBool, ht]
    have hnf : ¬(s = "0" ∨ s = "f" ∨ s = "F" ∨ s = "FALSE" ∨ s = "false" ∨ s = "False") := by
      rcases ht with h | h | h | h | h | h <;> subst h <;> decide
    have ht2 : s = "1" ∨ s = "t" ∨ s = "T" ∨ s = "TRUE" ∨ s = "true" ∨ s = "True" := by
      rcases ht with h | h | h | h | h | h <;> simp [h]
    refine ⟨⟨fun _ => ht2, fun _ => hconv⟩, ⟨fun h => ?_, fun h => absurd h hnf⟩, ?_, ?_⟩
    · rw [hconv] at h
      cases h
    · intro v hv
      rw [hconv] at hv
      cases hv
      exact Or.inl rfl
    · intro h
      exact absurd ht2 h
  · have ht2 : ¬(s = "1" ∨ s = "t" ∨ s = "T" ∨ s = "TRUE" ∨ s = "true" ∨ s = "True") := by
      intro h
      apply ht
      rcases h with h | h | h | h | h | h <;> simp [h]
    by_cases hf : s = "0" ∨ s = "f" ∨ s = "F" ∨ s = "false" ∨ s = "FALSE" ∨ s = "False"
    · have hconv : BoolConverter.Convert s = .ok (.bool false) := by
        simp [BoolConverter.Convert, ParseBool, ht, hf]
      have hf2 : s = "0" ∨ s = "f" ∨ s = "F" ∨ s = "FALSE" ∨ s = "false" ∨ s = "False" := by
        rcases hf with h | h | h | h | h | h <;> simp [h]
      refine ⟨⟨fun h => ?_, fun h => absurd h ht2⟩, ⟨fun _ => hf2, fun _ => hconv⟩, ?_, ?_⟩
      · rw [hconv] at h
        cases h
      · intro v hv
        rw [hconv] at hv
        cases hv
        exact Or.inr rfl
      · intro _ h
        exact absurd hf2 h
    · have hf2 : ¬(s = "0" ∨ s = "f" ∨ s = "F" ∨ s = "FALSE" ∨ s = "false" ∨ s = "False") := by
        intro h
        apply hf
        rcases h with h | h | h | h | h | h <;> simp [h]
      have hconv : BoolConverter.Convert s = .error .ErrSyntax := by
        simp [BoolConverter.Convert, ParseBool, ht, hf]
      refine ⟨⟨fun h => ?_, fun h => absurd h ht2⟩, ⟨fun h => ?_, fun h => absurd h hf2⟩, ?_, ?_⟩
      · rw [hconv] at h
        cases h
      · rw [hconv] at h
        cases h
      · intro v hv
        rw [hconv] at hv
        cases hv
      · intro _ _
        exact hconv

/-! ## The integer converter (C13) -/

theorem digitValue_eq_some (c : Char) (d : Nat) :
    digitValue c = some d ↔ IsDecimalDigit c ∧ d = c.toNat - '0'.toNat := by
  unfold digitValue IsDecimalDigit
  by_cases h : '0' ≤ c ∧ c ≤ '9'
  · simp [h, eq_comm]
  · simp [h]

theorem digitValue_eq_none (c : Char) : digitValue c = none ↔ ¬IsDecimalDigit c := by
  unfold digitValue IsDecimalDigit
  by_cases h : '0' ≤ c ∧ c ≤ '9' <;> simp [h]

/-- Reading further digits never lowers the value read so far. -/
theorem foldl_digits_ge (cs : List Char) (n : Nat) :
    n ≤ cs.foldl (fun n c => 10 * n + (c.toNat - '0'.toNat)) n := by
  induction cs generalizing n with
  | nil => exact Nat.le_refl n
  | cons c cs ih =>
    simp only [List.foldl_cons]
    exact Nat.le_trans (by omega) (ih _)

/-- The digit loop succeeds exactly on digits whose value fits 64 bits. -/
theorem parseUintLoop_eq_ok (cs : List Char) (n v : Nat) (hn : n ≤ 2 ^ 64 - 1) :
    parseUintLoop cs n = .ok v ↔
      (∀ c ∈ cs, IsDecimalDigit c) ∧
        cs.foldl (fun n c => 10 * n + (c.toNat - '0'.toNat)) n = v ∧ v ≤ 2 ^ 64 - 1 := by
  induction cs generalizing n with
  | nil =>
    constructor
    · intro h
      simp only [parseUintLoop, Except.ok.injEq] at h
      subst h
      exact ⟨fun c hc => absurd hc (List.not_mem_nil c), rfl, hn⟩
    · rintro ⟨_, h, _⟩
      simp only [List.foldl_nil] at h
      simp [parseUintLoop, h]
  | cons c cs ih =>
    have hge := foldl_digits_ge cs (10 * n + (c.toNat - '0'.toNat))
    constructor
    · intro h
      simp only [parseUintLoop] at h
      cases hd : digitValue c with
      | none =>
        rw [hd] at h
        cases h
      | some d =>
        rw [hd] at h
        simp only at h
        obtain ⟨hdig, hdv⟩ := (digitValue_eq_some c d).1 hd
        by_cases h1 : n ≥ (2 ^ 64 - 1) / 10 + 1
        · rw [if_pos h1] at h
          cases h
        · rw [if_neg h1] at h
          by_cases h2 : n * 10 + d > 2 ^ 64 - 1
          · rw [if_pos h2] at h
            cases h
          · rw [if_neg h2] at h
            have heq : n * 10 + d = 10 * n + (c.toNat - '0'.toNat) := by omega
            rw [heq] at h
            obtain ⟨ha, hb, hc⟩ := (ih _ (by omega)).1 h
            refine ⟨?_, hb, hc⟩
            intro x hx
            rcases List.mem_cons.1 hx with rfl | hx
            · exact hdig
            · exact ha x hx
    · rintro ⟨ha, hb, hc⟩
      have hdig := ha c (List.mem_cons_self _ _)
      have hd : digitValue c = some (c.toNat - '0'.toNat) :=
        (digitValue_eq_some _ _).2 ⟨hdig, rfl⟩
      simp only [List.foldl_cons] at hb
      have h1 : ¬n ≥ (2 ^ 64 - 1) / 10 + 1 := by omega
      have h2 : ¬n * 10 + (c.toNat - '0'.toNat) > 2 ^ 64 - 1 := by omega
      have heq : n * 10 + (c.toNat - '0'.toNat) = 10 * n + (c.toNat - '0'.toNat) := by omega
      simp only [parseUintLoop, hd]
      rw [if_neg h1, if_neg h2, heq]
      exact (ih _ (by omega)).2 ⟨fun x hx => ha x (List.mem_cons_of_mem _ hx), hb, hc⟩

theorem ParseUint_eq_ok (s : List Char) (v : Nat) :
    ParseUint s = .ok v ↔
      s ≠ [] ∧ (∀ c ∈ s, IsDecimalDigit c) ∧ decimalValue s = v ∧ v ≤ 2 ^ 64 - 1 := by
  cases s with
  | nil => simp [ParseUint]
  | cons c cs =>
    simp only [ParseUint, ne_eq, reduceCtorEq, not_false_eq_true, true_and, decimalValue]
    exact parseUintLoop_eq_ok (c :: cs) 0 v (by omega)

theorem parseIntSigned_false (s : List Char) (i : Int) :
    parseIntSigned false s = .ok i ↔
      s ≠ [] ∧ (∀ c ∈ s, IsDecimalDigit c) ∧ i = decimalValue s ∧
        (decimalValue s : Int) ≤ 2 ^ 63 - 1 := by
  unfold parseIntSigned
  cases hp : ParseUint s with
  | error e =>
    have hno : ¬(s ≠ [] ∧ (∀ c ∈ s, IsDecimalDigit c) ∧ i = decimalValue s ∧
        (decimalValue s : Int) ≤ 2 ^ 63 - 1) := by
      rintro ⟨h1, h2, _, h3⟩
      have := (ParseUint_eq_ok s _).2 ⟨h1, h2, rfl, by omega⟩
      rw [hp] at this
      cases this
    cases e <;> simp only <;> exact ⟨fun h => (by cases h), fun h => absurd h hno⟩
  | ok un =>
    obtain ⟨h1, h2, h3, h4⟩ := (ParseUint_eq_ok s un).1 hp
    subst h3
    simp only [Bool.not_false, true_and, Bool.false_eq_true, false_and, if_false]
    by_cases hle : decimalValue s ≥ 2 ^ 63
    · rw [if_pos hle]
      constructor
      · intro h
        cases h
      · rintro ⟨_, _, _, h⟩
        omega
    · rw [if_neg hle]
      constructor
      · intro h
        simp only [Except.ok.injEq] at h
        exact ⟨h1, h2, h.symm, by omega⟩
      · rintro ⟨_, _, h, _⟩
        rw [h]

theorem parseIntSigned_true (s : List Char) (i : Int) :
    parseIntSigned true s = .ok i ↔
      s ≠ [] ∧ (∀ c ∈ s, IsDecimalDigit c) ∧ i = -(decimalValue s : Int) ∧
        -2 ^ 63 ≤ -(decimalValue s : Int) := by
  unfold parseIntSigned
  cases hp : ParseUint s with
  | error e =>
    have hno : ¬(s ≠ [] ∧ (∀ c ∈ s, IsDecimalDigit c) ∧ i = -(decimalValue s : Int) ∧
        -2 ^ 63 ≤ -(decimalValue s : Int)) := by
      rintro ⟨h1, h2, _, h3⟩
      have := (ParseUint_eq_ok s _).2 ⟨h1, h2, rfl, by omega⟩
      rw [hp] at this
      cases this
    cases e <;> simp only <;> exact ⟨fun h => (by cases h), fun h => absurd h hno⟩
  | ok un =>
    obtain ⟨h1, h2, h3, h4⟩ := (ParseUint_eq_ok s un).1 hp
    subst h3
    simp only [Bool.not_true, Bool.false_eq_true, false_and, if_false, true_and, if_true]
    by_cases hle : decimalValue s > 2 ^ 63
    · rw [if_pos hle]
      constructor
      · intro h
        cases h
      · rintro ⟨_, _, _, h⟩
        omega
    · rw [if_neg hle]
      constructor
      · intro h
        simp only [Except.ok.injEq] at h
        exact ⟨h1, h2, h.symm, by omega⟩
      · rintro ⟨_, _, h, _⟩
        rw [h]

/-- A sign character is not a decimal digit. -/
theorem not_isDecimalDigit_sign : ¬IsDecimalDigit '+' ∧ ¬IsDecimalDigit '-' := by
  unfold IsDecimalDigit
  decide

/-- The model of `strconv.ParseInt` succeeds exactly on the signed decimal
literals whose value is an `int64`. -/
theorem ParseInt_eq_ok (s : String) (i : Int) :
    ParseInt s = .ok i ↔ IsSignedDecimal s i ∧ -2 ^ 63 ≤ i ∧ i ≤ 2 ^ 63 - 1 := by
  unfold ParseInt IsSignedDecimal
  split
  · rename_i hs
    constructor
    · intro h
      cases h
    · rintro ⟨⟨digits, hne, _, h⟩, _⟩
      rw [hs] at h
      rcases h with ⟨h, _⟩ | ⟨h, _⟩ | ⟨h, _⟩
      · exact absurd h.symm hne
      · cases h
      · cases h
  · rename_i cs hs
    rw [parseIntSigned_false, hs]
    constructor
    · rintro ⟨h1, h2, h3, h4⟩
      exact ⟨⟨cs, h1, h2, Or.inr (Or.inl ⟨rfl, h3⟩)⟩, by omega, by omega⟩
    · rintro ⟨⟨digits, hne, hdig, h⟩, _, hle⟩
      rcases h with ⟨h, _⟩ | ⟨h, hv⟩ | ⟨h, _⟩
      · exact absurd (hdig '+' (by rw [← h]; exact List.mem_cons_self _ _))
          not_isDecimalDigit_sign.1
      · obtain rfl : cs = digits := (List.cons.inj h).2
        exact ⟨hne, hdig, hv, by omega⟩
      · cases h
  · rename_i cs hs
    rw [parseIntSigned_true, hs]
    constructor
    · rintro ⟨h1, h2, h3, h4⟩
      exact ⟨⟨cs, h1, h2, Or.inr (Or.inr ⟨rfl, h3⟩)⟩, by omega, by omega⟩
    · rintro ⟨⟨digits, hne, hdig, h⟩, hge, _⟩
      rcases h with ⟨h, _⟩ | ⟨h, _⟩ | ⟨h, hv⟩
      · exact absurd (hdig '-' (by rw [← h]; exact List.mem_cons_self _ _))
          not_isDecimalDigit_sign.2
      · cases h
      · obtain rfl : cs = digits := (List.cons.inj h).2
        exact ⟨hne, hdig, hv, by omega⟩
  · rename_i cs hnil hplus hminus
    rw [parseIntSigned_false]
    constructor
    · rintro ⟨h1, h2, h3, h4⟩
      exact ⟨⟨s.data, h1, h2, Or.inl ⟨rfl, h3⟩⟩, by omega, by omega⟩
    · rintro ⟨⟨digits, hne, hdig, h⟩, _, hle⟩
      rcases h with ⟨h, hv⟩ | ⟨h, _⟩ | ⟨h, _⟩
      · rw [h]
        exact ⟨hne, hdig, hv, by omega⟩
      · exact absurd h (hplus digits)
      · exact absurd h (hminus digits)

/-- C13. `IntConverter.Convert(s)` succeeds exactly when `s` is an optional
`+` or `-` followed by one or more decimal digits whose value `n` lies in
`[-2^63, 2^63-1]`, and it then returns the `int64` `n`; on every other text it
fails: the empty text, text that is not a number, text with a blank before or
after the number, and numbers outside the `int64` range. -/
theorem intConverter_convert_literal (s : String) :
    (∀ v, IntConverter.Convert s = .ok v ↔
      ∃ n : Int, IsSignedDecimal s n ∧ -2 ^ 63 ≤ n ∧ n ≤ 2 ^ 63 - 1 ∧ v = .int64 n) ∧
    ((¬∃ n : Int, IsSignedDecimal s n ∧ -2 ^ 63 ≤ n ∧ n ≤ 2 ^ 63 - 1) →
      ∃ err, IntConverter.Convert s = .error err) ∧
    IntConverter.Convert "" = .error .ErrSyntax ∧
    IntConverter.Convert "abc" = .error .ErrSyntax ∧
    IntConverter.Convert "+" = .error .ErrSyntax ∧
    IntConverter.Convert " 42" = .error .ErrSyntax ∧
    IntConverter.Convert "42 " = .error .ErrSyntax ∧
    IntConverter.Convert "9223372036854775808" = .error .ErrRange ∧
    IntConverter.Convert "-9223372036854775809" = .error .ErrRange ∧
    IntConverter.Convert "9223372036854775807" = .ok (.int64 9223372036854775807) ∧
    IntConverter.Convert "-9223372036854775808" = .ok (.int64 (-9223372036854775808)) ∧
    IntConverter.Convert "+042" = .ok (.int64 42) := by
  refine ⟨?_, ?_, rfl, rfl, rfl, rfl, rfl, rfl, rfl, rfl, rfl, rfl⟩
  · intro v
    unfold IntConverter.Convert
    cases hp : ParseInt s with
    | ok i =>
      obtain ⟨h1, h2, h3⟩ := (ParseInt_eq_ok s i).1 hp
      constructor
      · intro h
        simp only [Except.ok.injEq] at h
        exact ⟨i, h1, h2, h3, h.symm⟩
      · rintro ⟨n, hn1, hn2, hn3, rfl⟩
        have := (ParseInt_eq_ok s n).2 ⟨hn1, hn2, hn3⟩
        rw [hp] at this
        cases this
        rfl
    | error e =>
      constructor
      · intro h
        cases h
      · rintro ⟨n, hn1, hn2, hn3, _⟩
        have := (ParseInt_eq_ok s n).2 ⟨hn1, hn2, hn3⟩
        rw [hp] at this
        cases this
  · intro hno
    unfold IntConverter.Convert
    cases hp : ParseInt s with
    | ok i =>
      obtain ⟨h1, h2, h3⟩ := (ParseInt_eq_ok s i).1 hp
      exact absurd ⟨i, h1, h2, h3⟩ hno
    | error e => exact ⟨e, rfl⟩

end Hydra
